import Mathlib

/-!
# Verification of the coverage core of `codecov-action`

A shallow embedding, in Lean 4, of the coverage-analysis core of the
repository: the canonical coverage data model, the aggregation engine
(`CoverageParserFactory.aggregateResults`), the format parsers
(Cobertura, Codecov-JSON, LCOV, plus the detection signatures of all
registered parsers), the patch-coverage intersection
(`PatchAnalyzer.analyzePatchCoverage`), the threshold evaluator
(`ThresholdChecker.checkProjectStatus`) and the configuration-value
parsers (`ConfigLoader.parseThreshold`, `ConfigLoader.parseCommentFilesMode`).

Modelling conventions:
* JavaScript numbers are modelled as `Int` where the source stores counts
  and as `Rat` where it stores rates/percentages.  Overflow and the
  float/integer distinction never matter at the sizes involved.
* `NaN` is not representable in `Int`/`Rat`.  Where the source can produce
  `NaN` from `Number.parseInt`/`Number.parseFloat` on malformed digits, the
  model returns the default `0`; every comparison the source performs on
  such a value (`x > 0`, `x === 0` is never reached with `NaN` in the paths
  the theorems below exercise) agrees with the `0` default on the inputs
  used by every theorem and counterexample in this file.  Where the source
  *branches* on `Number.isNaN` (the Codecov parser's line-number keys) the
  model uses `Option Int` with `none` for `NaN`, faithfully.
* Strings are processed through their character lists (`String.data`);
  `String.prototype.includes`, `split`, `trim`, `substring` are given
  explicit character-list implementations below.
* Throwing code is modelled with `Except String`; code that cannot throw is
  a total function.
-/

/-! ## JavaScript string/number primitives -/

/-- Character-level model of `String.prototype.includes`:
`listContains hay needle` is true iff `needle` occurs contiguously in `hay`. -/
def listStarts : List Char → List Char → Bool
  | [], _ => true
  | _ :: _, [] => false
  | p :: ps, c :: cs => p == c && listStarts ps cs

def listContains (needle hay : List Char) : Bool :=
  match hay with
  | [] => needle.isEmpty
  | _ :: t => listStarts needle hay || listContains needle t

/-- `content.includes(needle)` on Lean strings. -/
def jsIncludes (content needle : String) : Bool :=
  listContains needle.data content.data

/-- `content.startsWith(needle)`. -/
def jsStartsWith (content needle : String) : Bool :=
  listStarts needle.data content.data

/-- Split a character list on a separator character (JS `split(sep)` for a
one-character separator). -/
def splitOnChar (sep : Char) : List Char → List (List Char)
  | [] => [[]]
  | c :: cs =>
    let rest := splitOnChar sep cs
    if c == sep then [] :: rest
    else match rest with
      | [] => [[c]]
      | r :: rs => (c :: r) :: rs

/-- JS `String.prototype.trim` (ASCII whitespace suffices for this code). -/
def isSpaceChar (c : Char) : Bool :=
  c == ' ' || c == '\t' || c == '\n' || c == '\r'

def trimChars (l : List Char) : List Char :=
  ((l.dropWhile isSpaceChar).reverse.dropWhile isSpaceChar).reverse

def isDigitChar (c : Char) : Bool := '0' ≤ c && c ≤ '9'

def digitVal (c : Char) : Int := Int.ofNat (c.toNat - '0'.toNat)

def digitsToInt (l : List Char) : Int :=
  l.foldl (fun acc c => acc * 10 + digitVal c) 0

/-- `Number.parseInt(s, 10)` restricted to the shapes this code meets:
returns `none` for `NaN` (no leading digits), otherwise the value of the
maximal leading digit run. -/
def jsParseIntOpt (l : List Char) : Option Int :=
  let ds := l.takeWhile isDigitChar
  if ds.isEmpty then none else some (digitsToInt ds)

/-- `Number.parseInt` collapsing `NaN` to `0` (see the conventions above). -/
def jsParseIntD (l : List Char) : Int := (jsParseIntOpt l).getD 0

/-- Value of `digits₁.digits₂` as a rational. -/
def decimalToRat (intPart fracPart : List Char) : Rat :=
  (digitsToInt intPart : Rat) +
    (digitsToInt fracPart : Rat) / ((10 : Rat) ^ fracPart.length)

/-- `Number.parseFloat` restricted to the shapes this code meets
(`"0"`, `"0.5"`, …): maximal leading `digits[.digits]` run; `NaN`
(no leading digits) collapses to `0` (see the conventions above). -/
def jsParseFloatD (l : List Char) : Rat :=
  let ds := l.takeWhile isDigitChar
  if ds.isEmpty then 0
  else
    match l.drop ds.length with
    | '.' :: rest => decimalToRat ds (rest.takeWhile isDigitChar)
    | _ => (digitsToInt ds : Rat)

/-- `Number.parseFloat(x.toFixed(2))`: round to 2 decimal places (half
away from zero never occurs at a tie in any theorem below, so rounding
half up is an adequate model of `toFixed`). -/
def round2 (q : Rat) : Rat := (⌊q * 100 + 1 / 2⌋ : Rat) / 100

/-! ## Canonical coverage data model (`types/coverage.ts`, spec §3) -/

inductive LineKind where
  | stmt
  | cond
  | method
deriving DecidableEq, Repr

structure LineCoverage where
  lineNumber : Int
  count : Int
  kind : LineKind
  trueCount : Option Int := none
  falseCount : Option Int := none
deriving DecidableEq, Repr

structure FileCoverage where
  name : String
  path : String
  statements : Int
  coveredStatements : Int
  conditionals : Int
  coveredConditionals : Int
  methods : Int
  coveredMethods : Int
  lineRate : Rat
  branchRate : Rat
  lines : List LineCoverage
  missingLines : Option (List Int) := none
  partialLines : Option (List Int) := none
deriving DecidableEq, Repr

structure CoverageMetrics where
  statements : Int
  coveredStatements : Int
  conditionals : Int
  coveredConditionals : Int
  methods : Int
  coveredMethods : Int
  elements : Int
  coveredElements : Int
  lineRate : Rat
  branchRate : Rat
deriving DecidableEq, Repr

structure CoverageResults where
  timestamp : Int
  metrics : CoverageMetrics
  files : List FileCoverage
deriving DecidableEq, Repr

structure CoverageComparison where
  deltaLineRate : Rat
  deltaBranchRate : Rat
  filesAdded : List String
  filesRemoved : List String
  filesChanged : List String
  improvement : Bool
deriving DecidableEq, Repr

structure AggregatedCoverageResults where
  totalStatements : Int
  coveredStatements : Int
  totalConditionals : Int
  coveredConditionals : Int
  totalMethods : Int
  coveredMethods : Int
  lineRate : Rat
  branchRate : Rat
  files : List FileCoverage
  comparison : Option CoverageComparison := none
deriving DecidableEq, Repr

/-- `BaseCoverageParser.calculateRate`:
`if (total === 0) return 0; return parseFloat(((covered/total)*100).toFixed(2))`. -/
def calculateRate (covered total : Int) : Rat :=
  if total = 0 then 0 else round2 ((covered : Rat) / (total : Rat) * 100)

/-! ## Aggregator (`CoverageParserFactory.aggregateResults`) -/

structure AggAcc where
  totalStatements : Int
  coveredStatements : Int
  totalConditionals : Int
  coveredConditionals : Int
  totalMethods : Int
  coveredMethods : Int
  allFiles : List FileCoverage
deriving Repr

def aggStep (acc : AggAcc) (result : CoverageResults) : AggAcc :=
  { totalStatements := acc.totalStatements + result.metrics.statements
    coveredStatements := acc.coveredStatements + result.metrics.coveredStatements
    totalConditionals := acc.totalConditionals + result.metrics.conditionals
    coveredConditionals := acc.coveredConditionals + result.metrics.coveredConditionals
    totalMethods := acc.totalMethods + result.metrics.methods
    coveredMethods := acc.coveredMethods + result.metrics.coveredMethods
    allFiles := acc.allFiles ++ result.files }

/-- `CoverageParserFactory.aggregateResults`: one pass summing the six
counters and pushing every file, then the guarded rate computations. -/
def aggregateResults (results : List CoverageResults) : AggregatedCoverageResults :=
  let acc := results.foldl aggStep
    { totalStatements := 0, coveredStatements := 0, totalConditionals := 0
      coveredConditionals := 0, totalMethods := 0, coveredMethods := 0, allFiles := [] }
  let lineRate : Rat :=
    if acc.totalStatements > 0 then
      round2 ((acc.coveredStatements : Rat) / (acc.totalStatements : Rat) * 100)
    else 0
  let branchRate : Rat :=
    if acc.totalConditionals > 0 then
      round2 ((acc.coveredConditionals : Rat) / (acc.totalConditionals : Rat) * 100)
    else 0
  { totalStatements := acc.totalStatements
    coveredStatements := acc.coveredStatements
    totalConditionals := acc.totalConditionals
    coveredConditionals := acc.coveredConditionals
    totalMethods := acc.totalMethods
    coveredMethods := acc.coveredMethods
    lineRate := lineRate
    branchRate := branchRate
    files := acc.allFiles }

/-- C1: aggregating `[A, B]` sums each of the six metric counters
field-wise, concatenates `A.files ++ B.files` in order with no
de-duplication, and `aggregateResults []` is the all-zero result with an
empty file list (the function is total, hence never throws). -/
theorem aggregateResults_pair_additive_and_empty_zero
    (A B : CoverageResults) :
    (aggregateResults [A, B]).totalStatements
        = A.metrics.statements + B.metrics.statements ∧
    (aggregateResults [A, B]).coveredStatements
        = A.metrics.coveredStatements + B.metrics.coveredStatements ∧
    (aggregateResults [A, B]).totalConditionals
        = A.metrics.conditionals + B.metrics.conditionals ∧
    (aggregateResults [A, B]).coveredConditionals
        = A.metrics.coveredConditionals + B.metrics.coveredConditionals ∧
    (aggregateResults [A, B]).totalMethods
        = A.metrics.methods + B.metrics.methods ∧
    (aggregateResults [A, B]).coveredMethods
        = A.metrics.coveredMethods + B.metrics.coveredMethods ∧
    (aggregateResults [A, B]).files = A.files ++ B.files ∧
    aggregateResults [] =
      { totalStatements := 0, coveredStatements := 0, totalConditionals := 0
        coveredConditionals := 0, totalMethods := 0, coveredMethods := 0
        lineRate := 0, branchRate := 0, files := [] } := by
  refine ⟨?_, ?_, ?_, ?_, ?_, ?_, ?_, ?_⟩ <;>
    simp [aggregateResults, aggStep]

/-! ## Threshold checker (`ThresholdChecker`) -/

inductive CheckStatus where
  | success
  | failure
deriving DecidableEq, Repr

structure StatusCheckResult where
  status : CheckStatus
  description : String
  informational : Bool
deriving DecidableEq, Repr

/-- `target: number | "auto"` of `NormalizedConfig["status"]["project"]`. -/
inductive TargetValue where
  | num (t : Rat)
  | auto
deriving DecidableEq, Repr

structure ProjectStatusConfig where
  target : TargetValue
  threshold : Option Rat
  informational : Bool
deriving DecidableEq, Repr

/-- JS `threshold || 0` on a nullable number: `null` and `0` are falsy. -/
def jsOrZero (o : Option Rat) : Rat :=
  match o with
  | none => 0
  | some x => if x = 0 then 0 else x

/-- Numeric formatting placeholder for `x.toFixed(2)` inside description
strings; no claim concerns description text, only the `status` field, so
`toString` stands in for JS number formatting. -/
def fmt2 (q : Rat) : String := toString (round2 q)

/-- `ThresholdChecker.checkProjectStatus`.  The TS parameter type restricts
`target` to `number | "auto"`, so the trailing "Unknown target
configuration" return of the source is unreachable and has no model. -/
def checkProjectStatus (results : AggregatedCoverageResults)
    (config : ProjectStatusConfig) : StatusCheckResult :=
  let currentCoverage := results.lineRate
  match config.target with
  | .num target =>
    let isSuccess := currentCoverage ≥ target
    let cur := fmt2 currentCoverage
    let cmp := if isSuccess then ">=" else "<"
    let tgt := toString target
    { status := if isSuccess then .success else .failure
      description := s!"{cur}% {cmp} target {tgt}%"
      informational := config.informational }
  | .auto =>
    match results.comparison with
    | none =>
      let cur := fmt2 currentCoverage
      { status := .success
        description := s!"{cur}% (No base report)"
        informational := config.informational }
    | some comparison =>
      let delta := comparison.deltaLineRate
      let allowedDrop := jsOrZero config.threshold
      let isSuccess := delta ≥ -allowedDrop
      let cur := fmt2 currentCoverage
      let d := fmt2 delta
      let description :=
        if delta ≥ 0 then s!"{cur}% (+{d}%) relative to base"
        else
          let base := s!"{cur}% ({d}%) relative to base"
          let th := toString allowedDrop
          if allowedDrop > 0 then base ++ s!" (threshold {th}%)" else base
      { status := if isSuccess then .success else .failure
        description := description
        informational := config.informational }

structure PatchFileCoverage where
  path : String
  coveredLines : List Int
  missedLines : List Int
  percentage : Rat
deriving DecidableEq, Repr

structure PatchCoverageResults where
  coveredLines : Int
  missedLines : Int
  totalLines : Int
  percentage : Rat
  fileBreakdown : List PatchFileCoverage
  changedFiles : List String
deriving DecidableEq, Repr

structure PatchStatusConfig where
  target : TargetValue
  threshold : Option Rat
  informational : Bool
deriving DecidableEq, Repr

/-- `ThresholdChecker.checkPatchStatus`. -/
def checkPatchStatus (patchCoverage : Option PatchCoverageResults)
    (config : PatchStatusConfig) : StatusCheckResult :=
  match patchCoverage with
  | none =>
    { status := .success
      description := "Patch coverage: N/A (not in PR context)"
      informational := config.informational }
  | some patch =>
    let target : Rat := match config.target with | .num t => t | .auto => 80
    let isSuccess := patch.percentage ≥ target
    let p := fmt2 patch.percentage
    let cmp := if isSuccess then ">=" else "<"
    let tgt := toString target
    { status := if isSuccess then .success else .failure
      description := s!"{p}% {cmp} target {tgt}%"
      informational := config.informational }

theorem jsOrZero_eq_getD (o : Option Rat) : jsOrZero o = o.getD 0 := by
  cases o with
  | none => rfl
  | some x =>
    by_cases h : x = 0 <;> simp [jsOrZero, h]

/-- C4: the project status is `success` exactly when — numeric target —
`lineRate ≥ target` (equality succeeds); `"auto"` target without a
comparison — always; `"auto"` with a comparison — `deltaLineRate ≥
-(threshold, taken as 0 when null)`, with `delta = -threshold` succeeding. -/
theorem checkProjectStatus_success_iff
    (results : AggregatedCoverageResults) (config : ProjectStatusConfig) :
    (checkProjectStatus results config).status = .success ↔
      (match config.target, results.comparison with
        | .num t, _ => results.lineRate ≥ t
        | .auto, none => True
        | .auto, some comp => comp.deltaLineRate ≥ -(config.threshold.getD 0)) := by
  obtain ⟨tgt, th, inf⟩ := config
  cases tgt with
  | num t =>
    simp only [checkProjectStatus]
    split <;> rename_i h <;> simp_all
  | auto =>
    cases hcmp : results.comparison with
    | none => simp [checkProjectStatus, hcmp]
    | some comp =>
      simp only [checkProjectStatus, hcmp, jsOrZero_eq_getD]
      split <;> rename_i h <;> simp_all

/-! ## Configuration-value parsing (`ConfigLoader`) -/

/-- A YAML/JSON scalar as `ConfigLoader.parseThreshold` receives it
(`unknown` in TS): a number, a string, `null`, `undefined`, or anything
else (booleans, objects, arrays — all handled by the final fallback). -/
inductive ConfigVal where
  | num (q : Rat)
  | str (s : String)
  | nullVal
  | undef
  | other
deriving DecidableEq, Repr

/-- The anchored regex `^(\d+(?:\.\d+)?)%?$` together with
`parseFloat(match[1])`: `none` when the string does not match. -/
def thresholdStrMatch (l : List Char) : Option Rat :=
  let ds := l.takeWhile isDigitChar
  if ds.isEmpty then none
  else
    match l.drop ds.length with
    | [] => some (digitsToInt ds : Rat)
    | ['%'] => some (digitsToInt ds : Rat)
    | '.' :: r2 =>
      let fs := r2.takeWhile isDigitChar
      if fs.isEmpty then none
      else
        match r2.drop fs.length with
        | [] => some (decimalToRat ds fs)
        | ['%'] => some (decimalToRat ds fs)
        | _ => none
    | _ => none

/-- `ConfigLoader.parseThreshold`. -/
def parseThreshold : ConfigVal → Option Rat
  | .nullVal => none
  | .undef => none
  | .num q => some q
  | .str s => thresholdStrMatch s.data
  | .other => none

/-- The `comment.files` value as `ConfigLoader.parseCommentFilesMode`
receives it: `undefined`, a string, or anything else. -/
inductive CommentFilesVal where
  | undef
  | str (s : String)
  | other
deriving DecidableEq, Repr

/-- `ConfigLoader.parseCommentFilesMode`: valid strings pass through,
everything else falls back to `"all"` (with a logged warning). -/
def parseCommentFilesMode : CommentFilesVal → String
  | .undef => "all"
  | .str s => if s = "all" ∨ s = "changed" ∨ s = "none" then s else "all"
  | .other => "all"

theorem takeWhile_all_append (p : Char → Bool) (l r : List Char)
    (h : ∀ c ∈ l, p c = true) :
    (l ++ r).takeWhile p = l ++ r.takeWhile p := by
  induction l with
  | nil => rfl
  | cons c cs ih =>
    have hc : p c = true := h c (List.mem_cons_self c cs)
    simp only [List.cons_append, List.takeWhile_cons, hc, if_true]
    rw [ih fun x hx => h x (List.mem_cons_of_mem c hx)]

theorem takeWhile_head_false (p : Char → Bool) (c : Char) (r : List Char)
    (h : p c = false) : (c :: r).takeWhile p = [] := by
  simp [List.takeWhile_cons, h]


theorem takeWhile_all (p : Char → Bool) (l : List Char)
    (h : ∀ c ∈ l, p c = true) : l.takeWhile p = l := by
  simpa using takeWhile_all_append p l [] h

theorem isEmpty_false_of_ne_nil {l : List Char} (h : l ≠ []) :
    l.isEmpty = false := by
  cases l with
  | nil => exact absurd rfl h
  | cons a b => rfl

theorem thresholdStrMatch_digits (ds : List Char) (hne : ds ≠ [])
    (hd : ∀ c ∈ ds, isDigitChar c = true) :
    thresholdStrMatch ds = some (digitsToInt ds : Rat) := by
  simp [thresholdStrMatch, takeWhile_all isDigitChar ds hd,
    isEmpty_false_of_ne_nil hne, List.drop_length]

theorem thresholdStrMatch_digitsPct (ds : List Char) (hne : ds ≠ [])
    (hd : ∀ c ∈ ds, isDigitChar c = true) :
    thresholdStrMatch (ds ++ ['%']) = some (digitsToInt ds : Rat) := by
  have htw : (ds ++ ['%']).takeWhile isDigitChar = ds := by
    rw [takeWhile_all_append isDigitChar ds ['%'] hd]
    simp [takeWhile_head_false isDigitChar '%' [] (by decide)]
  simp [thresholdStrMatch, htw, isEmpty_false_of_ne_nil hne, List.drop_left]

theorem thresholdStrMatch_decimal (ds fs : List Char) (hds : ds ≠ [])
    (hfs : fs ≠ []) (hd : ∀ c ∈ ds, isDigitChar c = true)
    (hf : ∀ c ∈ fs, isDigitChar c = true) :
    thresholdStrMatch (ds ++ '.' :: fs) = some (decimalToRat ds fs) := by
  have htw : (ds ++ '.' :: fs).takeWhile isDigitChar = ds := by
    rw [takeWhile_all_append isDigitChar ds ('.' :: fs) hd,
      takeWhile_head_false isDigitChar '.' fs (by decide)]
    simp
  simp [thresholdStrMatch, htw, isEmpty_false_of_ne_nil hds, List.drop_left,
    takeWhile_all isDigitChar fs hf, isEmpty_false_of_ne_nil hfs,
    List.drop_length]

theorem thresholdStrMatch_decimalPct (ds fs : List Char) (hds : ds ≠ [])
    (hfs : fs ≠ []) (hd : ∀ c ∈ ds, isDigitChar c = true)
    (hf : ∀ c ∈ fs, isDigitChar c = true) :
    thresholdStrMatch (ds ++ '.' :: (fs ++ ['%'])) = some (decimalToRat ds fs) := by
  have htw : (ds ++ '.' :: (fs ++ ['%'])).takeWhile isDigitChar = ds := by
    rw [takeWhile_all_append isDigitChar ds ('.' :: (fs ++ ['%'])) hd,
      takeWhile_head_false isDigitChar '.' (fs ++ ['%']) (by decide)]
    simp
  have htw2 : (fs ++ ['%']).takeWhile isDigitChar = fs := by
    rw [takeWhile_all_append isDigitChar fs ['%'] hf]
    simp [takeWhile_head_false isDigitChar '%' [] (by decide)]
  simp [thresholdStrMatch, htw, isEmpty_false_of_ne_nil hds, List.drop_left,
    htw2, isEmpty_false_of_ne_nil hfs]

/-- C9: threshold parsing maps a number to itself; a string of the shape
`digits`, `digits%`, `digits.digits` or `digits.digits%` to its numeric
value; and every other value — non-matching strings, `null`, `undefined`,
booleans/objects — to `null` (no threshold), without throwing.  Likewise an
invalid `comment.files` value falls back to the safe default `"all"`. -/
theorem parseThreshold_spec (q : Rat) (ds fs : List Char) (s : String)
    (hds : ds ≠ []) (hfs : fs ≠ [])
    (hd : ∀ c ∈ ds, isDigitChar c = true)
    (hf : ∀ c ∈ fs, isDigitChar c = true) :
    parseThreshold (.num q) = some q ∧
    parseThreshold (.str ⟨ds⟩) = some (digitsToInt ds : Rat) ∧
    parseThreshold (.str ⟨ds ++ ['%']⟩) = some (digitsToInt ds : Rat) ∧
    parseThreshold (.str ⟨ds ++ '.' :: fs⟩) = some (decimalToRat ds fs) ∧
    parseThreshold (.str ⟨ds ++ '.' :: (fs ++ ['%'])⟩) = some (decimalToRat ds fs) ∧
    parseThreshold .nullVal = none ∧
    parseThreshold .undef = none ∧
    parseThreshold .other = none ∧
    parseThreshold (.str "abc") = none ∧
    parseThreshold (.str "10%%") = none ∧
    parseThreshold (.str "") = none ∧
    parseCommentFilesMode .undef = "all" ∧
    parseCommentFilesMode (.str "changed") = "changed" ∧
    parseCommentFilesMode (.str "bogus") = "all" ∧
    parseCommentFilesMode .other = "all" ∧
    (parseCommentFilesMode (.str s) = s ∨ parseCommentFilesMode (.str s) = "all") := by
  refine ⟨rfl, thresholdStrMatch_digits ds hds hd,
    thresholdStrMatch_digitsPct ds hds hd,
    thresholdStrMatch_decimal ds fs hds hfs hd hf,
    thresholdStrMatch_decimalPct ds fs hds hfs hd hf,
    rfl, rfl, rfl, by decide, by decide, by decide,
    rfl, by decide, by decide, rfl, ?_⟩
  by_cases h : s = "all" ∨ s = "changed" ∨ s = "none"
  · left; simp [parseCommentFilesMode, h]
  · right; simp [parseCommentFilesMode, h]

theorem parseThreshold_spec_witness :
    parseThreshold (.num 10) = some 10 ∧
    parseThreshold (.str "10") = some 10 ∧
    parseThreshold (.str "10%") = some 10 ∧
    parseThreshold (.str "7.5%") = some (15 / 2) := by
  have h10 := parseThreshold_spec 10 ['1', '0'] ['5'] "x"
    (by decide) (by decide) (by decide) (by decide)
  have h75 := parseThreshold_spec 10 ['7'] ['5'] "x"
    (by decide) (by decide) (by decide) (by decide)
  refine ⟨h10.1, ?_, ?_, ?_⟩
  · rw [show ("10" : String) = String.mk ['1', '0'] from rfl, h10.2.1]
    decide
  · rw [show ("10%" : String) = String.mk (['1', '0'] ++ ['%']) from rfl,
      h10.2.2.1]
    decide
  · rw [show ("7.5%" : String) = String.mk (['7'] ++ '.' :: (['5'] ++ ['%'])) from rfl,
      h75.2.2.2.2.1]
    have h7 : '7'.toNat - '0'.toNat = 7 := by decide
    have h5 : '5'.toNat - '0'.toNat = 5 := by decide
    norm_num [decimalToRat, digitsToInt, digitVal, h7, h5]

/-! ## Codecov custom-JSON parser (`CodecovParser`) -/

/-- A value of the per-line map in Codecov JSON:
`number | string | null` (`{"coverage": {path: {line: value}}}`). -/
inductive CodecovVal where
  | num (n : Int)
  | str (s : String)
  | nullVal
deriving DecidableEq, Repr

/-- The anchored branch regex `^(\d+)\/(\d+)$` of
`CodecovParser.parseFileCoverage`, yielding `(covered, total)`. -/
def codecovBranchMatch (l : List Char) : Option (Int × Int) :=
  let ds := l.takeWhile isDigitChar
  if ds.isEmpty then none
  else
    match l.drop ds.length with
    | '/' :: r =>
      let ts := r.takeWhile isDigitChar
      if ts.isEmpty then none
      else if r.drop ts.length = [] then some (digitsToInt ds, digitsToInt ts)
      else none
    | _ => none

/-- `filePath.split("/").pop() || filePath` (an empty last segment is falsy). -/
def jsBasename (path : String) : String :=
  match (splitOnChar '/' path.data).getLast? with
  | none => path
  | some l => if l.isEmpty then path else ⟨l⟩

namespace CodecovParser

structure FileAcc where
  lines : List LineCoverage
  missingLines : List Int
  partialLines : List Int
  totalStatements : Int
  coveredStatements : Int
  totalBranches : Int
  coveredBranches : Int
deriving Repr

/-- One iteration of the `for (const [lineNumStr, value] of Object.entries(lineCoverage))`
loop of `CodecovParser.parseFileCoverage`. -/
def lineStep (acc : FileAcc) (entry : String × CodecovVal) : FileAcc :=
  match entry.2 with
  | .nullVal => acc
  | .num hitCount =>
    match jsParseIntOpt entry.1.data with
    | none => acc
    | some lineNumber =>
      { acc with
        totalStatements := acc.totalStatements + 1
        lines := acc.lines ++ [{ lineNumber := lineNumber, count := hitCount, kind := .stmt }]
        coveredStatements :=
          if hitCount > 0 then acc.coveredStatements + 1 else acc.coveredStatements
        missingLines :=
          if hitCount > 0 then acc.missingLines else acc.missingLines ++ [lineNumber] }
  | .str s =>
    match jsParseIntOpt entry.1.data with
    | none => acc
    | some lineNumber =>
      match codecovBranchMatch s.data with
      | none => acc
      | some (covered, total) =>
        let hitCount := if covered > 0 then covered else 0
        { acc with
          totalBranches := acc.totalBranches + total
          coveredBranches := acc.coveredBranches + covered
          totalStatements := acc.totalStatements + 1
          lines := acc.lines ++
            [{ lineNumber := lineNumber, count := hitCount, kind := .cond
               trueCount := some covered, falseCount := some (total - covered) }]
          coveredStatements :=
            if covered > 0 then acc.coveredStatements + 1 else acc.coveredStatements
          partialLines :=
            if covered > 0 ∧ covered < total then acc.partialLines ++ [lineNumber]
            else acc.partialLines
          missingLines :=
            if covered > 0 then acc.missingLines else acc.missingLines ++ [lineNumber] }

/-- `CodecovParser.parseFileCoverage`.  The entry list models
`Object.entries` of the per-line object, in property order. -/
def parseFileCoverage (filePath : String)
    (lineCoverage : List (String × CodecovVal)) : FileCoverage :=
  let fileName := jsBasename filePath
  let acc := lineCoverage.foldl lineStep
    { lines := [], missingLines := [], partialLines := []
      totalStatements := 0, coveredStatements := 0
      totalBranches := 0, coveredBranches := 0 }
  { name := fileName
    path := filePath
    statements := acc.totalStatements
    coveredStatements := acc.coveredStatements
    conditionals := acc.totalBranches
    coveredConditionals := acc.coveredBranches
    methods := 0
    coveredMethods := 0
    lineRate := calculateRate acc.coveredStatements acc.totalStatements
    branchRate := calculateRate acc.coveredBranches acc.totalBranches
    lines := acc.lines.insertionSort (fun a b => a.lineNumber ≤ b.lineNumber)
    missingLines := some (acc.missingLines.insertionSort (· ≤ ·))
    partialLines := some (acc.partialLines.insertionSort (· ≤ ·)) }

/-- `CodecovParser.parseContent`, after `JSON.parse`: `none` models a JSON
document without a well-formed `coverage` object (the thrown error). -/
def parseContent (data : Option (List (String × List (String × CodecovVal)))) :
    Except String CoverageResults :=
  match data with
  | none => .error "Invalid Codecov JSON: missing 'coverage' key"
  | some coverage =>
    let files := coverage.map (fun e => parseFileCoverage e.1 e.2)
    let totalStatements := (files.map (·.statements)).foldl (· + ·) 0
    let coveredStatements := (files.map (·.coveredStatements)).foldl (· + ·) 0
    let totalConditionals := (files.map (·.conditionals)).foldl (· + ·) 0
    let coveredConditionals := (files.map (·.coveredConditionals)).foldl (· + ·) 0
    .ok
      { timestamp := 0
        metrics :=
          { statements := totalStatements
            coveredStatements := coveredStatements
            conditionals := totalConditionals
            coveredConditionals := coveredConditionals
            methods := 0
            coveredMethods := 0
            elements := totalStatements + totalConditionals
            coveredElements := coveredStatements + coveredConditionals
            lineRate := calculateRate coveredStatements totalStatements
            branchRate := calculateRate coveredConditionals totalConditionals }
        files := files }

/-! Specification-side counting functions for the per-entry behaviour. -/

/-- An entry that contributes one statement: valid line-number key and a
numeric value or a branch string matching `^(\d+)\/(\d+)$`. -/
def countsAsStatement (e : String × CodecovVal) : Bool :=
  (jsParseIntOpt e.1.data).isSome &&
  match e.2 with
  | .num _ => true
  | .str s => (codecovBranchMatch s.data).isSome
  | .nullVal => false

/-- An entry that contributes one covered statement. -/
def countsAsCovered (e : String × CodecovVal) : Bool :=
  (jsParseIntOpt e.1.data).isSome &&
  match e.2 with
  | .num n => n > 0
  | .str s =>
    match codecovBranchMatch s.data with
    | some (covered, _) => covered > 0
    | none => false
  | .nullVal => false

/-- Branch total contributed by one entry. -/
def condTotalOf (e : String × CodecovVal) : Int :=
  if (jsParseIntOpt e.1.data).isSome then
    match e.2 with
    | .str s =>
      match codecovBranchMatch s.data with
      | some (_, total) => total
      | none => 0
    | _ => 0
  else 0

/-- Covered-branch total contributed by one entry. -/
def condCoveredOf (e : String × CodecovVal) : Int :=
  if (jsParseIntOpt e.1.data).isSome then
    match e.2 with
    | .str s =>
      match codecovBranchMatch s.data with
      | some (covered, _) => covered
      | none => 0
    | _ => 0
  else 0

/-- The missing-line record contributed by one entry, if any. -/
def missingOf (e : String × CodecovVal) : Option Int :=
  match jsParseIntOpt e.1.data with
  | none => none
  | some ln =>
    match e.2 with
    | .num n => if n > 0 then none else some ln
    | .str s =>
      match codecovBranchMatch s.data with
      | some (covered, _) => if covered > 0 then none else some ln
      | none => none
    | .nullVal => none

/-- The partial-line record contributed by one entry, if any: a branch
string with `0 < covered < total`. -/
def partialOf (e : String × CodecovVal) : Option Int :=
  match jsParseIntOpt e.1.data with
  | none => none
  | some ln =>
    match e.2 with
    | .str s =>
      match codecovBranchMatch s.data with
      | some (covered, total) =>
        if covered > 0 ∧ covered < total then some ln else none
      | none => none
    | _ => none


theorem lineStep_totalStatements (acc : FileAcc) (e : String × CodecovVal) :
    (lineStep acc e).totalStatements
      = acc.totalStatements + (if countsAsStatement e then 1 else 0) := by
  obtain ⟨k, v⟩ := e
  cases v with
  | nullVal => simp [lineStep, countsAsStatement]
  | num n => cases hk : jsParseIntOpt k.data <;>
      simp [lineStep, countsAsStatement, hk]
  | str s =>
    cases hk : jsParseIntOpt k.data with
    | none => simp [lineStep, countsAsStatement, hk]
    | some ln =>
      cases hb : codecovBranchMatch s.data with
      | none => simp [lineStep, countsAsStatement, hk, hb]
      | some ct =>
        obtain ⟨c, t⟩ := ct
        simp [lineStep, countsAsStatement, hk, hb]

theorem lineStep_coveredStatements (acc : FileAcc) (e : String × CodecovVal) :
    (lineStep acc e).coveredStatements
      = acc.coveredStatements + (if countsAsCovered e then 1 else 0) := by
  obtain ⟨k, v⟩ := e
  cases v with
  | nullVal => simp [lineStep, countsAsCovered]
  | num n =>
    cases hk : jsParseIntOpt k.data with
    | none => simp [lineStep, countsAsCovered, hk]
    | some ln =>
      by_cases hn : n > 0 <;> simp [lineStep, countsAsCovered, hk, hn]
  | str s =>
    cases hk : jsParseIntOpt k.data with
    | none => simp [lineStep, countsAsCovered, hk]
    | some ln =>
      cases hb : codecovBranchMatch s.data with
      | none => simp [lineStep, countsAsCovered, hk, hb]
      | some ct =>
        obtain ⟨c, t⟩ := ct
        by_cases hc : c > 0 <;> simp [lineStep, countsAsCovered, hk, hb, hc]

theorem lineStep_totalBranches (acc : FileAcc) (e : String × CodecovVal) :
    (lineStep acc e).totalBranches = acc.totalBranches + condTotalOf e := by
  obtain ⟨k, v⟩ := e
  cases v with
  | nullVal => simp [lineStep, condTotalOf]
  | num n => cases hk : jsParseIntOpt k.data <;>
      simp [lineStep, condTotalOf, hk]
  | str s =>
    cases hk : jsParseIntOpt k.data with
    | none => simp [lineStep, condTotalOf, hk]
    | some ln =>
      cases hb : codecovBranchMatch s.data with
      | none => simp [lineStep, condTotalOf, hk, hb]
      | some ct =>
        obtain ⟨c, t⟩ := ct
        simp [lineStep, condTotalOf, hk, hb]

theorem lineStep_coveredBranches (acc : FileAcc) (e : String × CodecovVal) :
    (lineStep acc e).coveredBranches = acc.coveredBranches + condCoveredOf e := by
  obtain ⟨k, v⟩ := e
  cases v with
  | nullVal => simp [lineStep, condCoveredOf]
  | num n => cases hk : jsParseIntOpt k.data <;>
      simp [lineStep, condCoveredOf, hk]
  | str s =>
    cases hk : jsParseIntOpt k.data with
    | none => simp [lineStep, condCoveredOf, hk]
    | some ln =>
      cases hb : codecovBranchMatch s.data with
      | none => simp [lineStep, condCoveredOf, hk, hb]
      | some ct =>
        obtain ⟨c, t⟩ := ct
        simp [lineStep, condCoveredOf, hk, hb]

theorem lineStep_missingLines (acc : FileAcc) (e : String × CodecovVal) :
    (lineStep acc e).missingLines = acc.missingLines ++ (missingOf e).toList := by
  obtain ⟨k, v⟩ := e
  cases v with
  | nullVal => cases hk : jsParseIntOpt k.data <;> simp [lineStep, missingOf, hk]
  | num n =>
    cases hk : jsParseIntOpt k.data with
    | none => simp [lineStep, missingOf, hk]
    | some ln =>
      by_cases hn : n > 0 <;> simp [lineStep, missingOf, hk, hn]
  | str s =>
    cases hk : jsParseIntOpt k.data with
    | none => simp [lineStep, missingOf, hk]
    | some ln =>
      cases hb : codecovBranchMatch s.data with
      | none => simp [lineStep, missingOf, hk, hb]
      | some ct =>
        obtain ⟨c, t⟩ := ct
        by_cases hc : c > 0 <;> simp [lineStep, missingOf, hk, hb, hc]

theorem lineStep_partialLines (acc : FileAcc) (e : String × CodecovVal) :
    (lineStep acc e).partialLines = acc.partialLines ++ (partialOf e).toList := by
  obtain ⟨k, v⟩ := e
  cases v with
  | nullVal => cases hk : jsParseIntOpt k.data <;> simp [lineStep, partialOf, hk]
  | num n => cases hk : jsParseIntOpt k.data <;>
      simp [lineStep, partialOf, hk]
  | str s =>
    cases hk : jsParseIntOpt k.data with
    | none => simp [lineStep, partialOf, hk]
    | some ln =>
      cases hb : codecovBranchMatch s.data with
      | none => simp [lineStep, partialOf, hk, hb]
      | some ct =>
        obtain ⟨c, t⟩ := ct
        by_cases hc : c > 0 ∧ c < t <;> simp [lineStep, partialOf, hk, hb, hc]

end CodecovParser

/-- Generic accumulation over a fold: an `Int`-valued component that each
step advances by a per-element amount. -/
theorem foldl_acc_int {β γ : Type} (step : β → γ → β) (f : β → Int)
    (g : γ → Int) (h : ∀ acc e, f (step acc e) = f acc + g e)
    (l : List γ) (acc : β) :
    f (l.foldl step acc) = f acc + (l.map g).sum := by
  induction l generalizing acc with
  | nil => simp
  | cons e es ih =>
    simp only [List.foldl_cons, List.map_cons, List.sum_cons, ih, h]
    ring

/-- Generic accumulation over a fold: a list-valued component that each
step extends on the right by a per-element segment. -/
theorem foldl_acc_list {β γ δ : Type} (step : β → γ → β) (f : β → List δ)
    (g : γ → List δ) (h : ∀ acc e, f (step acc e) = f acc ++ g e)
    (l : List γ) (acc : β) :
    f (l.foldl step acc) = f acc ++ (l.map g).flatten := by
  induction l generalizing acc with
  | nil => simp
  | cons e es ih =>
    simp only [List.foldl_cons, List.map_cons, List.flatten_cons, ih, h,
      List.append_assoc]

theorem countP_int_eq_sum {α : Type} (p : α → Bool) (l : List α) :
    ((l.countP p : Nat) : Int) = (l.map fun e => if p e then (1 : Int) else 0).sum := by
  induction l with
  | nil => simp
  | cons e es ih =>
    by_cases h : p e <;> simp [List.countP_cons, h, ih] <;> omega

theorem filterMap_eq_flatten {α β : Type} (f : α → Option β) (l : List α) :
    l.filterMap f = (l.map fun e => (f e).toList).flatten := by
  induction l with
  | nil => rfl
  | cons e es ih => cases h : f e <;> simp [List.filterMap_cons, h, ih]

/-- The concrete Codecov per-line object of the specification scenario,
in `Object.entries` order (ascending integer-like keys). -/
def codecovScenario : List (String × CodecovVal) :=
  [("1", .num 5), ("2", .str "1/2"), ("3", .num 0),
   ("4", .str "0/3"), ("5", .nullVal), ("6", .str "3/3")]

/-- C5 (amended): the scenario file has statements=5 (the `null` entry at
line 5 excluded entirely), coveredStatements=3, conditionals=8,
coveredConditionals=4, missingLines=[3,4], partialLines=[2]; in general a
`null` entry contributes to no count, a matching branch string counts once
as a statement covered iff its covered part is > 0, and a branch line is
flagged partial iff `0 < covered < total` (a fully-missed branch line goes
to `missingLines`, not `partialLines`). -/
theorem codecov_parseFileCoverage_spec (path k : String)
    (entries pre post : List (String × CodecovVal)) :
    (CodecovParser.parseFileCoverage path entries).statements
        = (entries.countP CodecovParser.countsAsStatement : Int) ∧
    (CodecovParser.parseFileCoverage path entries).coveredStatements
        = (entries.countP CodecovParser.countsAsCovered : Int) ∧
    (CodecovParser.parseFileCoverage path entries).conditionals
        = (entries.map CodecovParser.condTotalOf).sum ∧
    (CodecovParser.parseFileCoverage path entries).coveredConditionals
        = (entries.map CodecovParser.condCoveredOf).sum ∧
    (CodecovParser.parseFileCoverage path entries).missingLines
        = some ((entries.filterMap CodecovParser.missingOf).insertionSort (· ≤ ·)) ∧
    (CodecovParser.parseFileCoverage path entries).partialLines
        = some ((entries.filterMap CodecovParser.partialOf).insertionSort (· ≤ ·)) ∧
    CodecovParser.parseFileCoverage path (pre ++ [(k, .nullVal)] ++ post)
        = CodecovParser.parseFileCoverage path (pre ++ post) ∧
    (CodecovParser.parseFileCoverage "src/main.rs" codecovScenario).statements = 5 ∧
    (CodecovParser.parseFileCoverage "src/main.rs" codecovScenario).coveredStatements = 3 ∧
    (CodecovParser.parseFileCoverage "src/main.rs" codecovScenario).conditionals = 8 ∧
    (CodecovParser.parseFileCoverage "src/main.rs" codecovScenario).coveredConditionals = 4 ∧
    (CodecovParser.parseFileCoverage "src/main.rs" codecovScenario).missingLines
        = some [3, 4] ∧
    (CodecovParser.parseFileCoverage "src/main.rs" codecovScenario).partialLines
        = some [2] := by
  refine ⟨?_, ?_, ?_, ?_, ?_, ?_, ?_,
    by decide, by decide, by decide, by decide, by decide, by decide⟩
  · show (entries.foldl CodecovParser.lineStep _).totalStatements = _
    rw [foldl_acc_int CodecovParser.lineStep (·.totalStatements) _
      CodecovParser.lineStep_totalStatements, countP_int_eq_sum]
    ring
  · show (entries.foldl CodecovParser.lineStep _).coveredStatements = _
    rw [foldl_acc_int CodecovParser.lineStep (·.coveredStatements) _
      CodecovParser.lineStep_coveredStatements, countP_int_eq_sum]
    ring
  · show (entries.foldl CodecovParser.lineStep _).totalBranches = _
    rw [foldl_acc_int CodecovParser.lineStep (·.totalBranches) _
      CodecovParser.lineStep_totalBranches]
    ring
  · show (entries.foldl CodecovParser.lineStep _).coveredBranches = _
    rw [foldl_acc_int CodecovParser.lineStep (·.coveredBranches) _
      CodecovParser.lineStep_coveredBranches]
    ring
  · show some ((entries.foldl CodecovParser.lineStep _).missingLines.insertionSort _) = _
    rw [foldl_acc_list CodecovParser.lineStep (·.missingLines) _
      CodecovParser.lineStep_missingLines, filterMap_eq_flatten]
    simp
  · show some ((entries.foldl CodecovParser.lineStep _).partialLines.insertionSort _) = _
    rw [foldl_acc_list CodecovParser.lineStep (·.partialLines) _
      CodecovParser.lineStep_partialLines, filterMap_eq_flatten]
    simp
  · simp [CodecovParser.parseFileCoverage, List.foldl_append,
      CodecovParser.lineStep]

/-- C5 counterexample: for the single entry `{"4": "0/3"}` — a branch line
whose covered part (0) is strictly below its total (3) — the parser flags
nothing as partial (`partialLines = []`; the line lands in `missingLines`),
refuting the claim that every branch line with `covered < total` is flagged
partial. -/
theorem codecov_partial_flag_counterexample :
    (CodecovParser.parseFileCoverage "lib.rs" [("4", .str "0/3")]).conditionals = 3 ∧
    (CodecovParser.parseFileCoverage "lib.rs" [("4", .str "0/3")]).coveredConditionals = 0 ∧
    (CodecovParser.parseFileCoverage "lib.rs" [("4", .str "0/3")]).partialLines = some [] ∧
    (CodecovParser.parseFileCoverage "lib.rs" [("4", .str "0/3")]).missingLines = some [4] := by
  decide

/-! ## Cobertura XML parser (`CoberturaParser`) -/

/-- JS `a || b` on a possibly-absent string attribute: `undefined` and the
empty string are falsy. -/
def jsOrStrO (a : Option String) (b : String) : String :=
  match a with
  | none => b
  | some s => if s.isEmpty then b else s

/-- JS truthiness of a possibly-absent string. -/
def jsTruthyStr (a : Option String) : Bool :=
  match a with
  | none => false
  | some s => !s.isEmpty

namespace CoberturaParser

/-- A `<line>` element after `xml2js` with `mergeAttrs` (attributes become
string-valued properties; absent attributes are `undefined`). -/
structure XmlLine where
  number : Option String := none
  hits : Option String := none
  branch : Option String := none
  conditionCoverage : Option String := none
deriving DecidableEq, Repr

/-- A `<method>` element: only its `<lines>/<line>` children are read. -/
structure XmlMethod where
  lines : List XmlLine := []
deriving DecidableEq, Repr

/-- A `<class>` element.  `lines`/`methods` model
`ensureArray(classElement.lines?.line)` / `ensureArray(...methods?.method)`. -/
structure XmlClass where
  name : Option String := none
  filename : Option String := none
  lines : List XmlLine := []
  methods : List XmlMethod := []
deriving DecidableEq, Repr

/-- The `<coverage>` root.  `classes` models the flattening
`for pkg of ensureArray(coverage.packages?.package); for cls of
ensureArray(pkg.classes?.class)`; package boundaries carry no data the
parser reads, so classes are listed package-major in order. -/
structure XmlCoverage where
  lineRateAttr : Option String := none
  branchRateAttr : Option String := none
  timestamp : Option String := none
  classes : List XmlClass := []
deriving DecidableEq, Repr

/-- First (leftmost) match of the unanchored regex `\((\d+)\/(\d+)\)`
against a `condition-coverage` string such as `"50% (1/2)"`. -/
def condCoverageMatch : List Char → Option (Int × Int)
  | [] => none
  | c :: rest =>
    if c = '(' then
      let ds := rest.takeWhile isDigitChar
      let attempt : Option (Int × Int) :=
        if ds.isEmpty then none
        else
          match rest.drop ds.length with
          | '/' :: r2 =>
            let ts := r2.takeWhile isDigitChar
            if ts.isEmpty then none
            else
              match r2.drop ts.length with
              | ')' :: _ => some (digitsToInt ds, digitsToInt ts)
              | _ => none
          | _ => none
      match attempt with
      | some p => some p
      | none => condCoverageMatch rest
    else condCoverageMatch rest

structure ClassAcc where
  lines : List LineCoverage
  statements : Int
  coveredStatements : Int
  conditionals : Int
  coveredConditionals : Int
deriving Repr

/-- One iteration of the `for (const lineData of classLines)` loop of
`CoberturaParser.parseClass`. -/
def classLineStep (st : ClassAcc) (line : XmlLine) : ClassAcc :=
  let lineNum := jsParseIntD (jsOrStrO line.number "0").data
  let hits := jsParseIntD (jsOrStrO line.hits "0").data
  let isBranch := line.branch = some "true"
  let st :=
    { st with
      statements := st.statements + 1
      coveredStatements :=
        if hits > 0 then st.coveredStatements + 1 else st.coveredStatements }
  let st :=
    if isBranch then
      if jsTruthyStr line.conditionCoverage then
        match condCoverageMatch (line.conditionCoverage.getD "").data with
        | some (covered, total) =>
          { st with
            conditionals := st.conditionals + total
            coveredConditionals := st.coveredConditionals + covered }
        | none => st
      else
        { st with
          conditionals := st.conditionals + 2
          coveredConditionals :=
            if hits > 0 then st.coveredConditionals + 1 else st.coveredConditionals }
    else st
  { st with
    lines := st.lines ++
      [{ lineNumber := lineNum, count := hits
         kind := if isBranch then .cond else .stmt }] }

/-- `method.lines.some(l => parseInt(l.hits || "0") > 0)`. -/
def methodHasHits (m : XmlMethod) : Bool :=
  m.lines.any fun l => jsParseIntD (jsOrStrO l.hits "0").data > 0

/-- `CoberturaParser.parseClass`. -/
def parseClass (cls : XmlClass) : FileCoverage :=
  let filename := jsOrStrO cls.filename ""
  let nm := jsOrStrO cls.name
    (jsOrStrO ((splitOnChar '/' filename.data).getLast?.map (⟨·⟩)) "")
  let st := cls.lines.foldl classLineStep
    { lines := [], statements := 0, coveredStatements := 0
      conditionals := 0, coveredConditionals := 0 }
  let methodCount := (cls.methods.length : Int)
  let coveredMethodCount :=
    ((cls.methods.countP methodHasHits : Nat) : Int)
  let methodCount' := if methodCount = 0 then 1 else methodCount
  let coveredMethodCount' :=
    if methodCount = 0 then (if st.coveredStatements > 0 then 1 else 0)
    else coveredMethodCount
  { name := nm
    path := filename
    statements := st.statements
    coveredStatements := st.coveredStatements
    conditionals := st.conditionals
    coveredConditionals := st.coveredConditionals
    methods := methodCount'
    coveredMethods := coveredMethodCount'
    lineRate := calculateRate st.coveredStatements st.statements
    branchRate := calculateRate st.coveredConditionals st.conditionals
    lines := st.lines }

/-- `CoberturaParser.parseContent`, after `parseStringPromise`: `none`
models a document without a `coverage` root (the thrown error). -/
def parseContent (root : Option XmlCoverage) : Except String CoverageResults :=
  match root with
  | none => .error "Invalid Cobertura XML: missing coverage element"
  | some coverage =>
    let globalLineRate := jsParseFloatD (jsOrStrO coverage.lineRateAttr "0").data
    let globalBranchRate := jsParseFloatD (jsOrStrO coverage.branchRateAttr "0").data
    let files := coverage.classes.map parseClass
    let totalStatements := (files.map (·.statements)).foldl (· + ·) 0
    let coveredStatements := (files.map (·.coveredStatements)).foldl (· + ·) 0
    let totalConditionals := (files.map (·.conditionals)).foldl (· + ·) 0
    let coveredConditionals := (files.map (·.coveredConditionals)).foldl (· + ·) 0
    let totalMethods := (files.map (·.methods)).foldl (· + ·) 0
    let coveredMethods := (files.map (·.coveredMethods)).foldl (· + ·) 0
    .ok
      { timestamp := jsParseIntD (jsOrStrO coverage.timestamp "0").data
        metrics :=
          { statements := totalStatements
            coveredStatements := coveredStatements
            conditionals := totalConditionals
            coveredConditionals := coveredConditionals
            methods := totalMethods
            coveredMethods := coveredMethods
            elements := totalStatements + totalConditionals
            coveredElements := coveredStatements + coveredConditionals
            lineRate :=
              if totalStatements > 0 then
                calculateRate coveredStatements totalStatements
              else globalLineRate * 100
            branchRate :=
              if totalConditionals > 0 then
                calculateRate coveredConditionals totalConditionals
              else globalBranchRate * 100 }
        files := files }

/-- Branch total a single `<line>` contributes. -/
def condTotalOf (line : XmlLine) : Int :=
  if line.branch = some "true" then
    if jsTruthyStr line.conditionCoverage then
      match condCoverageMatch (line.conditionCoverage.getD "").data with
      | some (_, total) => total
      | none => 0
    else 2
  else 0

/-- Covered-branch total a single `<line>` contributes. -/
def condCoveredOf (line : XmlLine) : Int :=
  if line.branch = some "true" then
    if jsTruthyStr line.conditionCoverage then
      match condCoverageMatch (line.conditionCoverage.getD "").data with
      | some (covered, _) => covered
      | none => 0
    else if jsParseIntD (jsOrStrO line.hits "0").data > 0 then 1 else 0
  else 0

theorem classLineStep_conditionals (st : ClassAcc) (line : XmlLine) :
    (classLineStep st line).conditionals = st.conditionals + condTotalOf line := by
  by_cases hb : line.branch = some "true"
  · by_cases ht : jsTruthyStr line.conditionCoverage = true
    · cases hm : condCoverageMatch (line.conditionCoverage.getD "").data with
      | none => simp [classLineStep, condTotalOf, hb, ht, hm]
      | some p =>
        obtain ⟨c, t⟩ := p
        simp [classLineStep, condTotalOf, hb, ht, hm]
    · simp [classLineStep, condTotalOf, hb, ht]
  · simp [classLineStep, condTotalOf, hb]

theorem classLineStep_coveredConditionals (st : ClassAcc) (line : XmlLine) :
    (classLineStep st line).coveredConditionals
      = st.coveredConditionals + condCoveredOf line := by
  by_cases hb : line.branch = some "true"
  · by_cases ht : jsTruthyStr line.conditionCoverage = true
    · cases hm : condCoverageMatch (line.conditionCoverage.getD "").data with
      | none => simp [classLineStep, condCoveredOf, hb, ht, hm]
      | some p =>
        obtain ⟨c, t⟩ := p
        simp [classLineStep, condCoveredOf, hb, ht, hm]
    · by_cases hh : jsParseIntD (jsOrStrO line.hits "0").data > 0 <;>
        simp [classLineStep, condCoveredOf, hb, ht, hh]
  · simp [classLineStep, condCoveredOf, hb]

theorem classLineStep_statements (st : ClassAcc) (line : XmlLine) :
    (classLineStep st line).statements = st.statements + 1 := by
  by_cases hb : line.branch = some "true" <;>
    by_cases ht : jsTruthyStr line.conditionCoverage = true <;>
      simp only [classLineStep, hb, ht] <;>
        repeat' first
          | rfl
          | split
          | simp

end CoberturaParser

/-- A branch `<line>` carrying no `condition-coverage` attribute. -/
def coberturaLineFallback : CoberturaParser.XmlLine :=
  { number := some "7", hits := some "3", branch := some "true" }

/-- A branch `<line>` with `condition-coverage="50% (1/2)"`. -/
def coberturaLineCC : CoberturaParser.XmlLine :=
  { number := some "8", hits := some "1", branch := some "true"
    conditionCoverage := some "50% (1/2)" }

/-- C7 (amended): a branch-flagged `<line>` with no `condition-coverage`
string contributes exactly 2 conditionals and 1 covered conditional iff
`hits > 0`; one with a non-empty string matching `\((\d+)\/(\d+)\)`
contributes the extracted `(covered/total)` pair; one with a non-empty,
non-matching string contributes no branch counts; an *empty*
`condition-coverage` string is falsy in JS and is treated exactly like an
absent one (2-branch fallback).  The file totals are the sums of these
per-line contributions. -/
theorem cobertura_branch_counting_spec (cls : CoberturaParser.XmlClass)
    (l : CoberturaParser.XmlLine) (s : String) (c t : Int)
    (hb : l.branch = some "true") :
    (l.conditionCoverage = none →
      CoberturaParser.condTotalOf l = 2 ∧
      CoberturaParser.condCoveredOf l =
        (if jsParseIntD (jsOrStrO l.hits "0").data > 0 then 1 else 0)) ∧
    (l.conditionCoverage = some "" →
      CoberturaParser.condTotalOf l = 2 ∧
      CoberturaParser.condCoveredOf l =
        (if jsParseIntD (jsOrStrO l.hits "0").data > 0 then 1 else 0)) ∧
    (l.conditionCoverage = some s → s ≠ "" →
      CoberturaParser.condCoverageMatch s.data = some (c, t) →
      CoberturaParser.condTotalOf l = t ∧ CoberturaParser.condCoveredOf l = c) ∧
    (l.conditionCoverage = some s → s ≠ "" →
      CoberturaParser.condCoverageMatch s.data = none →
      CoberturaParser.condTotalOf l = 0 ∧ CoberturaParser.condCoveredOf l = 0) ∧
    (CoberturaParser.parseClass cls).conditionals
        = (cls.lines.map CoberturaParser.condTotalOf).sum ∧
    (CoberturaParser.parseClass cls).coveredConditionals
        = (cls.lines.map CoberturaParser.condCoveredOf).sum := by
  have hempty : ("" : String).isEmpty = true := rfl
  refine ⟨?_, ?_, ?_, ?_, ?_, ?_⟩
  · intro hcc
    constructor <;>
      simp [CoberturaParser.condTotalOf, CoberturaParser.condCoveredOf,
        hb, hcc, jsTruthyStr]
  · intro hcc
    constructor <;>
      simp [CoberturaParser.condTotalOf, CoberturaParser.condCoveredOf,
        hb, hcc, jsTruthyStr, hempty]
  · intro hcc hne hm
    have hse : s.isEmpty = false := by
      cases hh : s.isEmpty
      · rfl
      · exact absurd ((String.isEmpty_iff s).mp hh) hne
    constructor <;>
      simp [CoberturaParser.condTotalOf, CoberturaParser.condCoveredOf,
        hb, hcc, jsTruthyStr, hse, hm]
  · intro hcc hne hm
    have hse : s.isEmpty = false := by
      cases hh : s.isEmpty
      · rfl
      · exact absurd ((String.isEmpty_iff s).mp hh) hne
    constructor <;>
      simp [CoberturaParser.condTotalOf, CoberturaParser.condCoveredOf,
        hb, hcc, jsTruthyStr, hse, hm]
  · show (cls.lines.foldl CoberturaParser.classLineStep _).conditionals = _
    rw [foldl_acc_int CoberturaParser.classLineStep (·.conditionals) _
      CoberturaParser.classLineStep_conditionals]
    ring
  · show (cls.lines.foldl CoberturaParser.classLineStep _).coveredConditionals = _
    rw [foldl_acc_int CoberturaParser.classLineStep (·.coveredConditionals) _
      CoberturaParser.classLineStep_coveredConditionals]
    ring

theorem cobertura_branch_counting_spec_witness :
    CoberturaParser.condTotalOf coberturaLineFallback = 2 ∧
    CoberturaParser.condCoveredOf coberturaLineFallback = 1 ∧
    CoberturaParser.condTotalOf coberturaLineCC = 2 ∧
    CoberturaParser.condCoveredOf coberturaLineCC = 1 ∧
    (CoberturaParser.parseClass
        { filename := some "a.py"
          lines := [coberturaLineFallback, coberturaLineCC] }).conditionals = 4 := by
  have h1 := cobertura_branch_counting_spec
    { lines := [] } coberturaLineFallback "x" 0 0 rfl
  have h2 := cobertura_branch_counting_spec
    { filename := some "a.py"
      lines := [coberturaLineFallback, coberturaLineCC] }
    coberturaLineCC "50% (1/2)" 1 2 rfl
  obtain ⟨hf, -, -, -, -, -⟩ := h1
  obtain ⟨-, -, hcc, -, hsum, -⟩ := h2
  have hf' := hf rfl
  have hcc' := hcc rfl (by decide) (by decide)
  refine ⟨hf'.1, ?_, hcc'.1, hcc'.2, ?_⟩
  · rw [hf'.2]; decide
  · rw [hsum]; simp [hf'.1, hcc'.1]

/-- C7 counterexample: a branch `<line>` whose `condition-coverage`
attribute is the *empty* string — a present string that does not match
`\((\d+)\/(\d+)\)` — still contributes the 2-branch fallback (2
conditionals, 1 covered because `hits > 0`), refuting the clause that a
branch line whose string does not match the pattern contributes no branch
counts at all. -/
theorem cobertura_empty_condcov_counterexample :
    (CoberturaParser.parseClass
      { filename := some "a.py"
        lines := [{ number := some "1", hits := some "1", branch := some "true"
                    conditionCoverage := some "" }] }).conditionals = 2 ∧
    (CoberturaParser.parseClass
      { filename := some "a.py"
        lines := [{ number := some "1", hits := some "1", branch := some "true"
                    conditionCoverage := some "" }] }).coveredConditionals = 1 ∧
    CoberturaParser.condCoverageMatch ("" : String).data = none := by
  refine ⟨by decide, by decide, rfl⟩

/-! ## LCOV parser (`LcovParser`) -/

/-- JS `Map.set` on an integer-keyed association list: overwrite in place
(keeping insertion position) or append. -/
def mapSet (m : List (Int × Int)) (k v : Int) : List (Int × Int) :=
  match m with
  | [] => [(k, v)]
  | (k', v') :: rest =>
    if k' = k then (k, v) :: rest else (k', v') :: mapSet rest k v

/-- JS `Map.get` (keys are unique by construction). -/
def mapGet (m : List (Int × Int × Int)) (k : Int) : Option (Int × Int) :=
  match m with
  | [] => none
  | (k', p) :: rest => if k' = k then some p else mapGet rest k

/-- Split a character list on a non-empty separator word
(JS `content.split("end_of_record")`). -/
def splitOnSub (sep : List Char) : List Char → List (List Char)
  | [] => [[]]
  | c :: cs =>
    if listStarts sep (c :: cs) && !sep.isEmpty then
      [] :: splitOnSub sep (cs.drop (sep.length - 1))
    else
      match splitOnSub sep cs with
      | [] => [[c]]
      | r :: rs => (c :: r) :: rs
termination_by l => l.length
decreasing_by
  · simp only [List.length_cons, List.length_drop]; omega
  · simp only [List.length_cons]; omega

namespace LcovParser

/-- The per-record mutable state of `LcovParser.parseRecord`:
`lineData`/`branchData` model the insertion-ordered JS `Map`s, the branch
map holding `(line, (total, covered))`. -/
structure RecState where
  sourceFile : String
  lineData : List (Int × Int)
  branchData : List (Int × Int × Int)
  functionsFound : Int
  functionsHit : Int
  linesFound : Int
  linesHit : Int
  branchesFound : Int
  branchesHit : Int
deriving DecidableEq, Repr

def initState : RecState :=
  { sourceFile := "", lineData := [], branchData := []
    functionsFound := 0, functionsHit := 0, linesFound := 0, linesHit := 0
    branchesFound := 0, branchesHit := 0 }

/-- The `BRDA` update: create the line's `{total: 0, covered: 0}` entry if
absent, then `total++` and `covered++` iff `taken > 0`. -/
def brdaApply (bd : List (Int × Int × Int)) (ln taken : Int) :
    List (Int × Int × Int) :=
  match bd with
  | [] => [(ln, 1, if taken > 0 then 1 else 0)]
  | (k, tot, cov) :: rest =>
    if k = ln then (k, tot + 1, if taken > 0 then cov + 1 else cov) :: rest
    else (k, tot, cov) :: brdaApply rest ln taken

/-- Classification of one (raw) line by the directive chain of the loop
body of `LcovParser.parseRecord`: `const trimmed = line.trim()`, the empty
test, then the `startsWith` tests in source order, each carrying the value
the branch extracts. -/
inductive Directive where
  | blank
  | sf (path : List Char)
  | da (parts : List (List Char))
  | lf (v : Int)
  | lh (v : Int)
  | fnf (v : Int)
  | fnh (v : Int)
  | brf (v : Int)
  | brh (v : Int)
  | brda (parts : List (List Char))
  | other
deriving DecidableEq, Repr

def classifyLine (line : List Char) : Directive :=
  let t := trimChars line
  if t.isEmpty then .blank
  else if listStarts ['S', 'F', ':'] t then .sf (t.drop 3)
  else if listStarts ['D', 'A', ':'] t then .da (splitOnChar ',' (t.drop 3))
  else if listStarts ['L', 'F', ':'] t then .lf (jsParseIntD (t.drop 3))
  else if listStarts ['L', 'H', ':'] t then .lh (jsParseIntD (t.drop 3))
  else if listStarts ['F', 'N', 'F', ':'] t then .fnf (jsParseIntD (t.drop 4))
  else if listStarts ['F', 'N', 'H', ':'] t then .fnh (jsParseIntD (t.drop 4))
  else if listStarts ['B', 'R', 'F', ':'] t then .brf (jsParseIntD (t.drop 4))
  else if listStarts ['B', 'R', 'H', ':'] t then .brh (jsParseIntD (t.drop 4))
  else if listStarts ['B', 'R', 'D', 'A', ':'] t then
    .brda (splitOnChar ',' (t.drop 5))
  else .other

/-- The `taken` value of a `BRDA:` branch: `parts[3] === "-" ? 0 :
parseInt(parts[3])`. -/
def takenOf (parts : List (List Char)) : Int :=
  if parts.getD 3 [] = ['-'] then 0 else jsParseIntD (parts.getD 3 [])

/-- One iteration of the `for (const line of lines)` loop of
`LcovParser.parseRecord`: the branch body for the classified directive. -/
def recStep (st : RecState) (line : List Char) : RecState :=
  match classifyLine line with
  | .blank => st
  | .sf path => { st with sourceFile := ⟨path⟩ }
  | .da parts =>
    if parts.length ≥ 2 then
      { st with lineData :=
          (mapSet st.lineData (jsParseIntD (parts.getD 0 []))
            (jsParseIntD (parts.getD 1 []))) }
    else st
  | .lf v => { st with linesFound := v }
  | .lh v => { st with linesHit := v }
  | .fnf v => { st with functionsFound := v }
  | .fnh v => { st with functionsHit := v }
  | .brf v => { st with branchesFound := v }
  | .brh v => { st with branchesHit := v }
  | .brda parts =>
    if parts.length ≥ 4 then
      { st with branchData :=
          (brdaApply st.branchData (jsParseIntD (parts.getD 0 []))
            (takenOf parts)) }
    else st
  | .other => st

/-- `record.split("\n")`. -/
def recLines (record : String) : List (List Char) :=
  splitOnChar '\n' record.data

/-- The state after the directive scan of one record. -/
def scanOf (record : String) : RecState :=
  (recLines record).foldl recStep initState

/-- `LcovParser.parseRecord`: the scan, then the `LF`/`BRF` fallback
derivations, the per-line array and the `FileCoverage` assembly. -/
def parseRecord (record : String) : Option FileCoverage :=
  let st := scanOf record
  if st.sourceFile.isEmpty then none
  else
    let derivedLines :=
      if st.linesFound = 0 ∧ st.lineData.length > 0 then
        ((st.lineData.length : Int),
          ((st.lineData.countP fun e => e.2 > 0 : Nat) : Int))
      else (st.linesFound, st.linesHit)
    let derivedBranches :=
      if st.branchesFound = 0 ∧ st.branchData.length > 0 then
        (st.branchesFound + (st.branchData.map fun e => e.2.1).sum,
          st.branchesHit + (st.branchData.map fun e => e.2.2).sum)
      else (st.branchesFound, st.branchesHit)
    let lineCoverage : List LineCoverage :=
      st.lineData.map fun e =>
        { lineNumber := e.1, count := e.2
          kind := if (mapGet st.branchData e.1).isSome then .cond else .stmt }
    some
      { name := jsBasename st.sourceFile
        path := st.sourceFile
        statements := derivedLines.1
        coveredStatements := derivedLines.2
        conditionals := derivedBranches.1
        coveredConditionals := derivedBranches.2
        methods := st.functionsFound
        coveredMethods := st.functionsHit
        lineRate := calculateRate derivedLines.2 derivedLines.1
        branchRate := calculateRate derivedBranches.2 derivedBranches.1
        lines := lineCoverage.insertionSort fun a b => a.lineNumber ≤ b.lineNumber }

/-- `LcovParser.parseContent`: split on `end_of_record`, parse each
non-empty record, sum the per-file counters, derive overall rates. -/
def parseContent (content : String) : CoverageResults :=
  let records := splitOnSub "end_of_record".data content.data
  let files := records.filterMap fun r =>
    let trimmedRecord := trimChars r
    if trimmedRecord.isEmpty then none else parseRecord ⟨trimmedRecord⟩
  let totalStatements := (files.map (·.statements)).foldl (· + ·) 0
  let coveredStatements := (files.map (·.coveredStatements)).foldl (· + ·) 0
  let totalConditionals := (files.map (·.conditionals)).foldl (· + ·) 0
  let coveredConditionals := (files.map (·.coveredConditionals)).foldl (· + ·) 0
  let totalMethods := (files.map (·.methods)).foldl (· + ·) 0
  let coveredMethods := (files.map (·.coveredMethods)).foldl (· + ·) 0
  { timestamp := 0
    metrics :=
      { statements := totalStatements
        coveredStatements := coveredStatements
        conditionals := totalConditionals
        coveredConditionals := coveredConditionals
        methods := totalMethods
        coveredMethods := coveredMethods
        elements := totalStatements + totalConditionals
        coveredElements := coveredStatements + coveredConditionals
        lineRate := calculateRate coveredStatements totalStatements
        branchRate := calculateRate coveredConditionals totalConditionals }
    files := files }

end LcovParser

namespace LcovParser

/-! Per-field projections of the scan: the effect of one classified line
on a single field of the state. -/

def sfStep (v : String) (line : List Char) : String :=
  match classifyLine line with
  | .sf path => ⟨path⟩
  | _ => v

def daStep (m : List (Int × Int)) (line : List Char) : List (Int × Int) :=
  match classifyLine line with
  | .da parts =>
    if parts.length ≥ 2 then
      mapSet m (jsParseIntD (parts.getD 0 [])) (jsParseIntD (parts.getD 1 []))
    else m
  | _ => m

def lfStep (v : Int) (line : List Char) : Int :=
  match classifyLine line with
  | .lf w => w
  | _ => v

def lhStep (v : Int) (line : List Char) : Int :=
  match classifyLine line with
  | .lh w => w
  | _ => v

def brfStep (v : Int) (line : List Char) : Int :=
  match classifyLine line with
  | .brf w => w
  | _ => v

def brhStep (v : Int) (line : List Char) : Int :=
  match classifyLine line with
  | .brh w => w
  | _ => v

def brStep (bd : List (Int × Int × Int)) (line : List Char) :
    List (Int × Int × Int) :=
  match classifyLine line with
  | .brda parts =>
    if parts.length ≥ 4 then
      brdaApply bd (jsParseIntD (parts.getD 0 [])) (takenOf parts)
    else bd
  | _ => bd

/-- A line that reaches the `BRDA:` branch with at least 4 fields. -/
def isBRDA (line : List Char) : Bool :=
  match classifyLine line with
  | .brda parts => parts.length ≥ 4
  | _ => false

/-- The `taken` value of a line (0 when it is not a valid `BRDA:` line). -/
def brdaTakenOf (line : List Char) : Int :=
  match classifyLine line with
  | .brda parts => if parts.length ≥ 4 then takenOf parts else 0
  | _ => 0

theorem recStep_sourceFile (st : RecState) (line : List Char) :
    (recStep st line).sourceFile = sfStep st.sourceFile line := by
  cases h : classifyLine line <;> simp only [recStep, sfStep, h] <;>
    (try split) <;> rfl

theorem recStep_lineData (st : RecState) (line : List Char) :
    (recStep st line).lineData = daStep st.lineData line := by
  cases h : classifyLine line <;> simp only [recStep, daStep, h] <;>
    (try split) <;> rfl

theorem recStep_linesFound (st : RecState) (line : List Char) :
    (recStep st line).linesFound = lfStep st.linesFound line := by
  cases h : classifyLine line <;> simp only [recStep, lfStep, h] <;>
    (try split) <;> rfl

theorem recStep_linesHit (st : RecState) (line : List Char) :
    (recStep st line).linesHit = lhStep st.linesHit line := by
  cases h : classifyLine line <;> simp only [recStep, lhStep, h] <;>
    (try split) <;> rfl

theorem recStep_branchesFound (st : RecState) (line : List Char) :
    (recStep st line).branchesFound = brfStep st.branchesFound line := by
  cases h : classifyLine line <;> simp only [recStep, brfStep, h] <;>
    (try split) <;> rfl

theorem recStep_branchesHit (st : RecState) (line : List Char) :
    (recStep st line).branchesHit = brhStep st.branchesHit line := by
  cases h : classifyLine line <;> simp only [recStep, brhStep, h] <;>
    (try split) <;> rfl

theorem recStep_branchData (st : RecState) (line : List Char) :
    (recStep st line).branchData = brStep st.branchData line := by
  cases h : classifyLine line <;> simp only [recStep, brStep, h] <;>
    (try split) <;> rfl

end LcovParser

/-- Commuting a projection through a fold. -/
theorem foldl_proj {β γ δ : Type} (step : β → γ → β) (f : β → δ)
    (g : δ → γ → δ) (h : ∀ acc e, f (step acc e) = g (f acc) e)
    (l : List γ) (acc : β) :
    f (l.foldl step acc) = l.foldl g (f acc) := by
  induction l generalizing acc with
  | nil => rfl
  | cons e es ih => simp only [List.foldl_cons, ih, h]

namespace LcovParser

def sumTot (bd : List (Int × Int × Int)) : Int := (bd.map fun e => e.2.1).sum

def sumCov (bd : List (Int × Int × Int)) : Int := (bd.map fun e => e.2.2).sum

theorem brdaApply_sumTot (bd : List (Int × Int × Int)) (ln tk : Int) :
    sumTot (brdaApply bd ln tk) = sumTot bd + 1 := by
  induction bd with
  | nil => simp [brdaApply, sumTot]
  | cons p rest ih =>
    obtain ⟨k, tot, cov⟩ := p
    by_cases h : k = ln <;> simp [brdaApply, h, sumTot] <;>
      simp [sumTot] at ih <;> omega

theorem brdaApply_sumCov (bd : List (Int × Int × Int)) (ln tk : Int) :
    sumCov (brdaApply bd ln tk) = sumCov bd + (if tk > 0 then 1 else 0) := by
  induction bd with
  | nil => by_cases htk : tk > 0 <;> simp [brdaApply, sumCov, htk]
  | cons p rest ih =>
    obtain ⟨k, tot, cov⟩ := p
    by_cases h : k = ln <;> by_cases htk : tk > 0 <;>
      simp [brdaApply, h, htk, sumCov] <;> simp [sumCov, htk] at ih <;> omega

theorem brStep_sumTot (bd : List (Int × Int × Int)) (line : List Char) :
    sumTot (brStep bd line) = sumTot bd + (if isBRDA line then 1 else 0) := by
  cases h : classifyLine line <;> simp only [brStep, isBRDA, h] <;>
    try simp
  rename_i parts
  by_cases hl : parts.length ≥ 4 <;> simp [hl, brdaApply_sumTot]

theorem brStep_sumCov (bd : List (Int × Int × Int)) (line : List Char) :
    sumCov (brStep bd line)
      = sumCov bd + (if isBRDA line && brdaTakenOf line > 0 then 1 else 0) := by
  cases h : classifyLine line <;>
    simp only [brStep, isBRDA, brdaTakenOf, h] <;> try simp
  rename_i parts
  by_cases hl : parts.length ≥ 4
  · by_cases htk : takenOf parts > 0 <;>
      simp [hl, htk, brdaApply_sumCov]
  · simp [hl]

theorem mapSet_keys (m : List (Int × Int)) (k v : Int) :
    (mapSet m k v).map Prod.fst =
      if k ∈ m.map Prod.fst then m.map Prod.fst
      else m.map Prod.fst ++ [k] := by
  induction m with
  | nil => simp [mapSet]
  | cons p rest ih =>
    obtain ⟨k', v'⟩ := p
    by_cases h : k' = k
    · subst h; simp [mapSet]
    · have hne : ¬k = k' := fun hh => h hh.symm
      simp only [mapSet, if_neg h, List.map_cons, ih, List.mem_cons, hne,
        false_or]
      by_cases hm : k ∈ rest.map Prod.fst <;> simp [hm]

theorem mapSet_keys_nodup (m : List (Int × Int)) (k v : Int)
    (h : (m.map Prod.fst).Nodup) : ((mapSet m k v).map Prod.fst).Nodup := by
  rw [mapSet_keys]
  split
  · exact h
  · rename_i hk
    simp [List.nodup_append, h, hk]

theorem brdaApply_keys (bd : List (Int × Int × Int)) (ln tk : Int) :
    (brdaApply bd ln tk).map Prod.fst =
      if ln ∈ bd.map Prod.fst then bd.map Prod.fst
      else bd.map Prod.fst ++ [ln] := by
  induction bd with
  | nil => simp [brdaApply]
  | cons p rest ih =>
    obtain ⟨k, tot, cov⟩ := p
    by_cases h : k = ln
    · subst h; simp [brdaApply]
    · have hne : ¬ln = k := fun hh => h hh.symm
      simp only [brdaApply, if_neg h, List.map_cons, ih, List.mem_cons, hne,
        false_or]
      by_cases hm : ln ∈ rest.map Prod.fst <;> simp [hm]

theorem brdaApply_keys_nodup (bd : List (Int × Int × Int)) (ln tk : Int)
    (h : (bd.map Prod.fst).Nodup) :
    ((brdaApply bd ln tk).map Prod.fst).Nodup := by
  rw [brdaApply_keys]
  split
  · exact h
  · rename_i hk
    simp [List.nodup_append, h, hk]

theorem daStep_keys_nodup (m : List (Int × Int)) (line : List Char)
    (h : (m.map Prod.fst).Nodup) : ((daStep m line).map Prod.fst).Nodup := by
  cases hc : classifyLine line <;> simp only [daStep, hc] <;> try exact h
  split
  · exact mapSet_keys_nodup _ _ _ h
  · exact h

theorem brStep_keys_nodup (bd : List (Int × Int × Int)) (line : List Char)
    (h : (bd.map Prod.fst).Nodup) : ((brStep bd line).map Prod.fst).Nodup := by
  cases hc : classifyLine line <;> simp only [brStep, hc] <;> try exact h
  split
  · exact brdaApply_keys_nodup _ _ _ h
  · exact h

/-! Record-level readings of the directive stream. -/

/-- Value left in `sourceFile` by the scan: the last `SF:` payload. -/
def sfOf (record : String) : String := (recLines record).foldl sfStep ""

/-- The `DA:` map after the scan: one entry per distinct line number, in
first-appearance order, holding the last hit count recorded for it. -/
def daMapOf (record : String) : List (Int × Int) :=
  (recLines record).foldl daStep []

/-- The `BRDA:` map after the scan: one `(total, covered)` pair per
distinct line number. -/
def brMapOf (record : String) : List (Int × Int × Int) :=
  (recLines record).foldl brStep []

/-- Value left in `linesFound` by the scan: the last `LF:` value (0 when
no `LF:` directive occurs). -/
def lfOf (record : String) : Int := (recLines record).foldl lfStep 0

def lhOf (record : String) : Int := (recLines record).foldl lhStep 0

def brfOf (record : String) : Int := (recLines record).foldl brfStep 0

def brhOf (record : String) : Int := (recLines record).foldl brhStep 0

theorem scanOf_fields (record : String) :
    (scanOf record).sourceFile = sfOf record ∧
    (scanOf record).lineData = daMapOf record ∧
    (scanOf record).branchData = brMapOf record ∧
    (scanOf record).linesFound = lfOf record ∧
    (scanOf record).linesHit = lhOf record ∧
    (scanOf record).branchesFound = brfOf record ∧
    (scanOf record).branchesHit = brhOf record :=
  ⟨foldl_proj recStep (·.sourceFile) sfStep recStep_sourceFile _ initState,
    foldl_proj recStep (·.lineData) daStep recStep_lineData _ initState,
    foldl_proj recStep (·.branchData) brStep recStep_branchData _ initState,
    foldl_proj recStep (·.linesFound) lfStep recStep_linesFound _ initState,
    foldl_proj recStep (·.linesHit) lhStep recStep_linesHit _ initState,
    foldl_proj recStep (·.branchesFound) brfStep recStep_branchesFound _ initState,
    foldl_proj recStep (·.branchesHit) brhStep recStep_branchesHit _ initState⟩

theorem brMapOf_sumTot (record : String) :
    sumTot (brMapOf record)
      = (((recLines record).countP isBRDA : Nat) : Int) := by
  have h := foldl_acc_int brStep sumTot (fun l => if isBRDA l then 1 else 0)
    brStep_sumTot (recLines record) []
  rw [countP_int_eq_sum]
  simpa [brMapOf, sumTot] using h

theorem brMapOf_sumCov (record : String) :
    sumCov (brMapOf record)
      = (((recLines record).countP
            fun l => isBRDA l && brdaTakenOf l > 0 : Nat) : Int) := by
  have h := foldl_acc_int brStep sumCov
    (fun l => if isBRDA l && brdaTakenOf l > 0 then 1 else 0)
    brStep_sumCov (recLines record) []
  rw [countP_int_eq_sum]
  simpa [brMapOf, sumCov] using h

theorem daMapOf_keys_nodup (record : String) :
    ((daMapOf record).map Prod.fst).Nodup := by
  have : ∀ (ls : List (List Char)) (m : List (Int × Int)),
      (m.map Prod.fst).Nodup → ((ls.foldl daStep m).map Prod.fst).Nodup := by
    intro ls
    induction ls with
    | nil => intro m hm; exact hm
    | cons l rest ih =>
      intro m hm
      exact ih _ (daStep_keys_nodup m l hm)
  exact this _ [] (by simp)

theorem brMapOf_keys_nodup (record : String) :
    ((brMapOf record).map Prod.fst).Nodup := by
  have : ∀ (ls : List (List Char)) (bd : List (Int × Int × Int)),
      (bd.map Prod.fst).Nodup → ((ls.foldl brStep bd).map Prod.fst).Nodup := by
    intro ls
    induction ls with
    | nil => intro bd hb; exact hb
    | cons l rest ih =>
      intro bd hb
      exact ih _ (brStep_keys_nodup bd l hb)
  exact this _ [] (by simp)

end LcovParser

/-- C8 (amended): the `LF:`/`LH:` (resp. `BRF:`/`BRH:`) summary directives
are authoritative exactly when the found-count left by the scan is
*non-zero*; when `LF` is zero-or-absent and `DA:` entries exist, statements
derive from the `DA:` map — one entry per *distinct* line number, the last
hit count winning — and when `BRF` is zero-or-absent and `BRDA:` entries
exist, each valid `BRDA:` line adds 1 to its line's branch total and 1 to
its covered count iff its `taken` field is a number > 0 (`'-'` counting
as 0), multiple `BRDA:` lines sharing a line number aggregating into one
pair (the maps' keys are duplicate-free); the derived covered-branch count
is added on top of any `BRH:` value. -/
theorem lcov_parseRecord_spec (record : String) (f : FileCoverage)
    (h : LcovParser.parseRecord record = some f) :
    (LcovParser.lfOf record ≠ 0 →
      f.statements = LcovParser.lfOf record ∧
      f.coveredStatements = LcovParser.lhOf record) ∧
    (LcovParser.lfOf record = 0 → LcovParser.daMapOf record ≠ [] →
      f.statements = ((LcovParser.daMapOf record).length : Int) ∧
      f.coveredStatements =
        (((LcovParser.daMapOf record).countP fun e => e.2 > 0 : Nat) : Int)) ∧
    (LcovParser.brfOf record ≠ 0 →
      f.conditionals = LcovParser.brfOf record ∧
      f.coveredConditionals = LcovParser.brhOf record) ∧
    (LcovParser.brfOf record = 0 → LcovParser.brMapOf record ≠ [] →
      f.conditionals =
        (((LcovParser.recLines record).countP LcovParser.isBRDA : Nat) : Int) ∧
      f.coveredConditionals = LcovParser.brhOf record +
        (((LcovParser.recLines record).countP
            fun l => LcovParser.isBRDA l && LcovParser.brdaTakenOf l > 0 : Nat) : Int)) ∧
    ((LcovParser.daMapOf record).map Prod.fst).Nodup ∧
    ((LcovParser.brMapOf record).map Prod.fst).Nodup := by
  obtain ⟨hsf, hda, hbr, hlf, hlh, hbrf, hbrh⟩ := LcovParser.scanOf_fields record
  simp only [LcovParser.parseRecord] at h
  split at h
  · exact absurd h (by simp)
  · rw [Option.some_inj] at h
    subst h
    refine ⟨?_, ?_, ?_, ?_,
      LcovParser.daMapOf_keys_nodup record, LcovParser.brMapOf_keys_nodup record⟩
    · intro hne
      have hcond : ¬((LcovParser.scanOf record).linesFound = 0 ∧
          (LcovParser.scanOf record).lineData.length > 0) := by
        rw [hlf]; exact fun hc => hne hc.1
      rw [if_neg hcond]
      exact ⟨hlf, hlh⟩
    · intro hz hne
      have hlen : (LcovParser.daMapOf record).length > 0 := by
        cases hq : LcovParser.daMapOf record with
        | nil => exact absurd hq hne
        | cons a l => simp
      have hcond : (LcovParser.scanOf record).linesFound = 0 ∧
          (LcovParser.scanOf record).lineData.length > 0 := by
        rw [hlf, hda]; exact ⟨hz, hlen⟩
      rw [if_pos hcond, hda]
      exact ⟨rfl, rfl⟩
    · intro hne
      have hcond : ¬((LcovParser.scanOf record).branchesFound = 0 ∧
          (LcovParser.scanOf record).branchData.length > 0) := by
        rw [hbrf]; exact fun hc => hne hc.1
      rw [if_neg hcond]
      exact ⟨hbrf, hbrh⟩
    · intro hz hne
      have hlen : (LcovParser.brMapOf record).length > 0 := by
        cases hq : LcovParser.brMapOf record with
        | nil => exact absurd hq hne
        | cons a l => simp
      have hcond : (LcovParser.scanOf record).branchesFound = 0 ∧
          (LcovParser.scanOf record).branchData.length > 0 := by
        rw [hbrf, hbr]; exact ⟨hz, hlen⟩
      rw [if_pos hcond, hbr, hbrf, hbrh, hz]
      constructor
      · rw [← LcovParser.brMapOf_sumTot record]
        simp [LcovParser.sumTot]
      · rw [← LcovParser.brMapOf_sumCov record]
        simp [LcovParser.sumCov]

/-- A record whose summary directives (`LF:2`, `LH:1`) are authoritative. -/
def lcovSampleRecord : String := "SF:a.c\nDA:1,5\nDA:2,0\nLF:2\nLH:1"

theorem lcov_parseRecord_spec_witness :
    (LcovParser.parseRecord lcovSampleRecord).map (·.statements) = some 2 ∧
    (LcovParser.parseRecord lcovSampleRecord).map (·.coveredStatements)
      = some 1 := by
  cases hp : LcovParser.parseRecord lcovSampleRecord with
  | none => exact absurd hp (by decide)
  | some f =>
    have h := (lcov_parseRecord_spec lcovSampleRecord f hp).1 (by decide)
    have h2 : LcovParser.lfOf lcovSampleRecord = 2 := by decide
    have h3 : LcovParser.lhOf lcovSampleRecord = 1 := by decide
    simp [h.1, h.2, h2, h3]

/-- C8 counterexample: first record — `LF:`/`LH:` present with values 0/0,
yet statements/covered are 1/1, derived from the `DA:` entry (the code
tests `linesFound === 0`, not directive presence); second record — two
`DA:` entries for line 1 (claim: statements = number of `DA:` entries = 2,
covered = entries with hits > 0 = 1), yet statements = 1 and covered = 0:
the line-keyed map de-duplicates and the last hit count wins. -/
theorem lcov_lf_directive_counterexample :
    (LcovParser.parseRecord "SF:file.ts\nLF:0\nLH:0\nDA:1,1").map
      (fun f => (f.statements, f.coveredStatements)) = some (1, 1) ∧
    (LcovParser.parseRecord "SF:f\nDA:1,1\nDA:1,0").map
      (fun f => (f.statements, f.coveredStatements)) = some (1, 0) := by
  constructor <;> decide

/-! ## Zero-denominator behaviour across rates -/

/-- A Cobertura document with a `line-rate` attribute but no classes. -/
def coberturaGlobalOnly : CoberturaParser.XmlCoverage :=
  { lineRateAttr := some "0.5", branchRateAttr := some "0.3" }

theorem jsParseFloatD_half : jsParseFloatD ("0.5" : String).data = 1 / 2 := by
  show jsParseFloatD ['0', '.', '5'] = 1 / 2
  have h1 : (['0', '.', '5'].takeWhile isDigitChar) = ['0'] := by decide
  have h2 : (['5'].takeWhile isDigitChar) = ['5'] := by decide
  have h5 : '5'.toNat - '0'.toNat = 5 := by decide
  have h0 : '0'.toNat - '0'.toNat = 0 := by decide
  simp only [jsParseFloatD, h1, List.drop, h2]
  norm_num [decimalToRat, digitsToInt, digitVal, h5, h0]

/-- C2 counterexample: the Cobertura parser accepts a document with an
empty `<packages>` list and `line-rate="0.5"`; the resulting overall
metrics have `statements = 0` but `lineRate = 50`, not 0 — the parser
falls back to the document's own `line-rate` attribute (×100) when no
statements were counted. -/
theorem cobertura_zero_statements_counterexample :
    (CoberturaParser.parseContent (some coberturaGlobalOnly)).toOption.map
      (fun r => (r.metrics.statements, r.metrics.lineRate)) = some (0, 50) := by
  have h := jsParseFloatD_half
  have hne : ("0.5" : String).isEmpty = false := rfl
  simp only [CoberturaParser.parseContent, coberturaGlobalOnly]
  simp only [Except.toOption, Option.map]
  norm_num [jsOrStrO, hne, h]

/-- C2 (amended): every rate computed through `calculateRate` — the base
helper, all per-file rates, the aggregator's and the Codecov/LCOV overall
rates — is 0 when its denominator is 0 (never a division by zero); the one
exception is the Cobertura parser's *overall* metrics, which fall back to
the document's `line-rate`/`branch-rate` attributes (×100) when the
respective counted total is 0. -/
theorem zero_denominator_spec (c : Int) (rs : List CoverageResults)
    (cls : CoberturaParser.XmlClass) (path : String)
    (entries : List (String × CodecovVal)) (record : String)
    (f : FileCoverage) (doc : CoberturaParser.XmlCoverage)
    (r : CoverageResults) :
    calculateRate c 0 = 0 ∧
    ((aggregateResults rs).totalStatements = 0 →
      (aggregateResults rs).lineRate = 0) ∧
    ((aggregateResults rs).totalConditionals = 0 →
      (aggregateResults rs).branchRate = 0) ∧
    ((CoberturaParser.parseClass cls).statements = 0 →
      (CoberturaParser.parseClass cls).lineRate = 0) ∧
    ((CoberturaParser.parseClass cls).conditionals = 0 →
      (CoberturaParser.parseClass cls).branchRate = 0) ∧
    ((CodecovParser.parseFileCoverage path entries).statements = 0 →
      (CodecovParser.parseFileCoverage path entries).lineRate = 0) ∧
    ((CodecovParser.parseFileCoverage path entries).conditionals = 0 →
      (CodecovParser.parseFileCoverage path entries).branchRate = 0) ∧
    (LcovParser.parseRecord record = some f →
      (f.statements = 0 → f.lineRate = 0) ∧
      (f.conditionals = 0 → f.branchRate = 0)) ∧
    (CoberturaParser.parseContent (some doc) = .ok r →
      (r.metrics.statements = 0 →
        r.metrics.lineRate =
          jsParseFloatD (jsOrStrO doc.lineRateAttr "0").data * 100) ∧
      (r.metrics.conditionals = 0 →
        r.metrics.branchRate =
          jsParseFloatD (jsOrStrO doc.branchRateAttr "0").data * 100)) := by
  refine ⟨by simp [calculateRate], ?_, ?_, ?_, ?_, ?_, ?_, ?_, ?_⟩
  · intro h
    simp only [aggregateResults] at h ⊢
    rw [h]
    simp
  · intro h
    simp only [aggregateResults] at h ⊢
    rw [h]
    simp
  · intro h
    simp only [CoberturaParser.parseClass] at h ⊢
    rw [h]
    simp [calculateRate]
  · intro h
    simp only [CoberturaParser.parseClass] at h ⊢
    rw [h]
    simp [calculateRate]
  · intro h
    simp only [CodecovParser.parseFileCoverage] at h ⊢
    rw [h]
    simp [calculateRate]
  · intro h
    simp only [CodecovParser.parseFileCoverage] at h ⊢
    rw [h]
    simp [calculateRate]
  · intro hp
    have hrates : ∀ g : FileCoverage, LcovParser.parseRecord record = some g →
        g.lineRate = calculateRate g.coveredStatements g.statements ∧
        g.branchRate = calculateRate g.coveredConditionals g.conditionals := by
      intro g hg
      simp only [LcovParser.parseRecord] at hg
      split at hg
      · exact absurd hg (by simp)
      · rw [Option.some_inj] at hg
        subst hg
        exact ⟨rfl, rfl⟩
    obtain ⟨h1, h2⟩ := hrates f hp
    constructor <;> intro h
    · rw [h1, h]; simp [calculateRate]
    · rw [h2, h]; simp [calculateRate]
  · intro hp
    have hrates : ∀ g : CoverageResults,
        CoberturaParser.parseContent (some doc) = .ok g →
        g.metrics.lineRate =
          (if g.metrics.statements > 0 then
            calculateRate g.metrics.coveredStatements g.metrics.statements
          else jsParseFloatD (jsOrStrO doc.lineRateAttr "0").data * 100) ∧
        g.metrics.branchRate =
          (if g.metrics.conditionals > 0 then
            calculateRate g.metrics.coveredConditionals g.metrics.conditionals
          else jsParseFloatD (jsOrStrO doc.branchRateAttr "0").data * 100) := by
      intro g hg
      simp only [CoberturaParser.parseContent] at hg
      rw [Except.ok.injEq] at hg
      subst hg
      exact ⟨rfl, rfl⟩
    obtain ⟨h1, h2⟩ := hrates r hp
    constructor <;> intro h
    · rw [h1, h]; simp
    · rw [h2, h]; simp

def emptyFileCoverage : FileCoverage :=
  { name := "", path := "", statements := 0, coveredStatements := 0
    conditionals := 0, coveredConditionals := 0, methods := 0
    coveredMethods := 0, lineRate := 0, branchRate := 0, lines := [] }

def emptyCoverageResults : CoverageResults :=
  { timestamp := 0
    metrics :=
      { statements := 0, coveredStatements := 0, conditionals := 0
        coveredConditionals := 0, methods := 0, coveredMethods := 0
        elements := 0, coveredElements := 0, lineRate := 0, branchRate := 0 }
    files := [] }

theorem zero_denominator_spec_witness :
    calculateRate 3 0 = 0 ∧
    (aggregateResults []).totalStatements = 0 ∧
    (aggregateResults []).lineRate = 0 := by
  have h := zero_denominator_spec 3 [] {} "p" [] "" emptyFileCoverage {}
    emptyCoverageResults
  exact ⟨h.1, by decide, h.2.1 (by decide)⟩

/-! ## Patch analyzer (`PatchAnalyzer.analyzePatchCoverage`) -/

inductive ChangeType where
  | add
  | del
  | normal
deriving DecidableEq, Repr

/-- One change of a diff hunk as `parse-diff` reports it (only the fields
the analyzer reads: the change type and, for additions, the new-file line
number `ln`). -/
structure DiffChange where
  type : ChangeType
  ln : Int
deriving DecidableEq, Repr

structure DiffChunk where
  changes : List DiffChange
deriving DecidableEq, Repr

/-- One file of a parsed unified diff (the fields the analyzer reads).
`toPath` models `diffFile.to`, the destination path (`to` is a reserved
word in Lean); `none` models `undefined` (e.g. a deletion). -/
structure DiffFile where
  deleted : Bool
  toPath : Option String
  chunks : List DiffChunk
deriving DecidableEq, Repr

namespace PatchAnalyzer

/-- Index bound by `new Map(files.map(f => [f.path, f]))`: for duplicate
paths the last insertion wins, so the map holds the last file with the
path. -/
def lastIndexOfPath : List FileCoverage → String → Option Nat
  | [], _ => none
  | f :: rest, p =>
    match lastIndexOfPath rest p with
    | some i => some (i + 1)
    | none => if f.path = p then some 0 else none

/-- JS `Set.add`: keeps the first insertion position. -/
def setAdd (s : List String) (x : String) : List String :=
  if x ∈ s then s else s ++ [x]

/-- The added line numbers of a diff file, in iteration order
(`change.type === "add"`). -/
def addedLines (chunks : List DiffChunk) : List Int :=
  (chunks.map fun c =>
    c.changes.filterMap fun ch =>
      if ch.type = .add then some ch.ln else none).flatten

/-- `coverageFile.lines.find(l => l.lineNumber === lineNumber)`. -/
def lineLookup (lines : List LineCoverage) (ln : Int) : Option LineCoverage :=
  lines.find? fun l => l.lineNumber = ln

/-- The added lines pushed onto `coveredLines` for one matched file. -/
def coveredFor (fc : FileCoverage) (chunks : List DiffChunk) : List Int :=
  (addedLines chunks).filter fun ln =>
    match lineLookup fc.lines ln with
    | some lc => lc.count > 0
    | none => false

/-- The added lines pushed onto `missedLines` for one matched file. -/
def missedFor (fc : FileCoverage) (chunks : List DiffChunk) : List Int :=
  (addedLines chunks).filter fun ln =>
    match lineLookup fc.lines ln with
    | some lc => ¬lc.count > 0
    | none => false

structure PatchAcc where
  files : List FileCoverage
  totalCovered : Int
  totalMissed : Int
  fileBreakdown : List PatchFileCoverage
  changedFiles : List String
deriving Repr

/-- One iteration of the `for (const diffFile of diffFiles)` loop.
`mapIdx` is the (reference-valued) coverage map built once from the input
files; a reference is the index of the file object, whose current value
lives in `acc.files`. -/
def patchStep (mapIdx : String → Option Nat) (acc : PatchAcc)
    (diffFile : DiffFile) : PatchAcc :=
  if diffFile.deleted then acc
  else
    match diffFile.toPath with
    | none => acc
    | some dest =>
      if dest.isEmpty then acc
      else
        let acc := { acc with changedFiles := setAdd acc.changedFiles dest }
        match mapIdx dest with
        | none => acc
        | some i =>
          match acc.files.get? i with
          | none => acc
          | some coverageFile =>
            let covered := coveredFor coverageFile diffFile.chunks
            let missed := missedFor coverageFile diffFile.chunks
            let acc :=
              { acc with
                totalCovered := acc.totalCovered + (covered.length : Int)
                totalMissed := acc.totalMissed + (missed.length : Int) }
            if covered.length > 0 ∨ missed.length > 0 then
              let total := covered.length + missed.length
              { acc with
                fileBreakdown := acc.fileBreakdown ++
                  [{ path := dest
                     coveredLines := covered
                     missedLines := missed
                     percentage :=
                       if total = 0 then 100
                       else ((covered.length : Rat) / (total : Rat)) * 100 }]
                files := acc.files.set i
                  { coverageFile with
                    missingLines := some (coverageFile.missingLines.getD []) } }
            else acc

/-- `PatchAnalyzer.analyzePatchCoverage` over the parsed diff.  Because
the JS function mutates the `missingLines` field of matched coverage-file
objects through the map's references, the model returns both the
`PatchCoverageResults` and the input `AggregatedCoverageResults` as it
stands after the call. -/
def analyzePatchCoverage (diffFiles : List DiffFile)
    (coverageResults : AggregatedCoverageResults) :
    PatchCoverageResults × AggregatedCoverageResults :=
  let mapIdx := lastIndexOfPath coverageResults.files
  let acc := diffFiles.foldl (patchStep mapIdx)
    { files := coverageResults.files, totalCovered := 0, totalMissed := 0
      fileBreakdown := [], changedFiles := [] }
  let totalLines := acc.totalCovered + acc.totalMissed
  let percentage : Rat :=
    if totalLines = 0 then 100
    else ((acc.totalCovered : Rat) / (totalLines : Rat)) * 100
  (
    { coveredLines := acc.totalCovered
      missedLines := acc.totalMissed
      totalLines := totalLines
      percentage := percentage
      fileBreakdown := acc.fileBreakdown
      changedFiles := acc.changedFiles },
    { coverageResults with files := acc.files })

/-- The `(covered, missed)` pair a diff entry contributes, computed
against the original file list. -/
def diffContrib (files0 : List FileCoverage) (df : DiffFile) : Int × Int :=
  if df.deleted then (0, 0)
  else
    match df.toPath with
    | none => (0, 0)
    | some dest =>
      if dest.isEmpty then (0, 0)
      else
        match lastIndexOfPath files0 dest with
        | none => (0, 0)
        | some i =>
          match files0.get? i with
          | none => (0, 0)
          | some f0 =>
            ((coveredFor f0 df.chunks).length, (missedFor f0 df.chunks).length)

/-- After-call relation of one file object to its original value: equal,
or — when `missingLines` was absent — equal with `missingLines` set to the
empty array. -/
def fileRel (f0 f : FileCoverage) : Prop :=
  f = f0 ∨ (f0.missingLines = none ∧ f = { f0 with missingLines := some [] })

/-- Relation of the evolving file list to the original. -/
def filesRel (files0 files : List FileCoverage) : Prop :=
  files.length = files0.length ∧
  ∀ i f0 f, files0.get? i = some f0 → files.get? i = some f → fileRel f0 f

end PatchAnalyzer

namespace PatchAnalyzer

theorem fileRel_path {f0 f : FileCoverage} (h : fileRel f0 f) :
    f.path = f0.path := by
  cases h with
  | inl h => rw [h]
  | inr h => rw [h.2]

theorem fileRel_lines {f0 f : FileCoverage} (h : fileRel f0 f) :
    f.lines = f0.lines := by
  cases h with
  | inl h => rw [h]
  | inr h => rw [h.2]

theorem fileRel_update {f0 f : FileCoverage} (h : fileRel f0 f) :
    fileRel f0 { f with missingLines := some (f.missingLines.getD []) } := by
  cases h with
  | inl h =>
    subst h
    cases hm : f.missingLines with
    | none =>
      right
      exact ⟨hm, by simp [hm]⟩
    | some l =>
      left
      cases f
      simp_all
  | inr h =>
    right
    refine ⟨h.1, ?_⟩
    rw [h.2]
    simp

theorem lastIndexOfPath_lt (files : List FileCoverage) (p : String) (i : Nat)
    (h : lastIndexOfPath files p = some i) : i < files.length := by
  induction files generalizing i with
  | nil => simp [lastIndexOfPath] at h
  | cons f rest ih =>
    simp only [lastIndexOfPath] at h
    cases hr : lastIndexOfPath rest p with
    | some j =>
      rw [hr] at h
      rw [Option.some_inj] at h
      subst h
      have := ih j hr
      simp only [List.length_cons]
      omega
    | none =>
      rw [hr] at h
      by_cases hp : f.path = p
      · simp only [hp, if_true, Option.some_inj] at h
        subst h
        simp
      · simp [hp] at h

theorem get_some_of_lt {α : Type} {l : List α} {i : Nat} (h : i < l.length) :
    ∃ a, l.get? i = some a := by
  cases hq : l.get? i with
  | none =>
    rw [List.get?_eq_none] at hq
    omega
  | some a => exact ⟨a, rfl⟩

theorem coveredFor_congr {f0 f : FileCoverage} (h : f.lines = f0.lines)
    (chunks : List DiffChunk) : coveredFor f chunks = coveredFor f0 chunks := by
  simp [coveredFor, lineLookup, h]

theorem missedFor_congr {f0 f : FileCoverage} (h : f.lines = f0.lines)
    (chunks : List DiffChunk) : missedFor f chunks = missedFor f0 chunks := by
  simp [missedFor, lineLookup, h]

theorem filesRel_set (files0 files : List FileCoverage) (i : Nat)
    (f : FileCoverage) (h : filesRel files0 files)
    (hf : files.get? i = some f) (f0 : FileCoverage)
    (hf0 : files0.get? i = some f0) (hfr : fileRel f0 f) :
    filesRel files0
      (files.set i { f with missingLines := some (f.missingLines.getD []) }) := by
  constructor
  · rw [List.length_set]
    exact h.1
  · intro j g0 g hg0 hg
    by_cases hij : i = j
    · subst hij
      have hlt : i < files.length := by
        by_contra hc
        rw [List.get?_eq_none.mpr (by omega)] at hf
        exact absurd hf (by simp)
      rw [List.get?_set_eq_of_lt _ hlt] at hg
      rw [Option.some_inj] at hg
      rw [hg0] at hf0
      rw [Option.some_inj] at hf0
      subst hf0
      rw [← hg]
      exact fileRel_update hfr
    · rw [List.get?_set_ne _ _ (fun hh => hij hh)] at hg
      exact h.2 j g0 g hg0 hg

end PatchAnalyzer

namespace PatchAnalyzer

theorem patchStep_spec (files0 : List FileCoverage) (acc : PatchAcc)
    (df : DiffFile) (hrel : filesRel files0 acc.files) :
    filesRel files0 (patchStep (lastIndexOfPath files0) acc df).files ∧
    (patchStep (lastIndexOfPath files0) acc df).totalCovered
      = acc.totalCovered + (diffContrib files0 df).1 ∧
    (patchStep (lastIndexOfPath files0) acc df).totalMissed
      = acc.totalMissed + (diffContrib files0 df).2 := by
  by_cases hdel : df.deleted = true
  · refine ⟨?_, ?_, ?_⟩ <;> simp [patchStep, diffContrib, hdel, hrel]
  cases hto : df.toPath with
  | none =>
    refine ⟨?_, ?_, ?_⟩ <;> simp [patchStep, diffContrib, hdel, hto, hrel]
  | some dest =>
    by_cases hde : dest.isEmpty = true
    · refine ⟨?_, ?_, ?_⟩ <;>
        simp [patchStep, diffContrib, hdel, hto, hde, hrel]
    cases hmi : lastIndexOfPath files0 dest with
    | none =>
      refine ⟨?_, ?_, ?_⟩ <;>
        simp [patchStep, diffContrib, hdel, hto, hde, hmi, hrel]
    | some i =>
      have hilt : i < files0.length := lastIndexOfPath_lt files0 dest i hmi
      obtain ⟨f0, hf0⟩ := get_some_of_lt hilt
      have hilt' : i < acc.files.length := by rw [hrel.1]; exact hilt
      obtain ⟨f, hf⟩ := get_some_of_lt hilt'
      have hfr := hrel.2 i f0 f hf0 hf
      have hlines : f.lines = f0.lines := fileRel_lines hfr
      have hcov := coveredFor_congr hlines df.chunks
      have hmis := missedFor_congr hlines df.chunks
      have hstep : patchStep (lastIndexOfPath files0) acc df =
          (if (coveredFor f0 df.chunks).length > 0 ∨
              (missedFor f0 df.chunks).length > 0 then
            { files := acc.files.set i
                { f with missingLines := some (f.missingLines.getD []) }
              totalCovered :=
                acc.totalCovered + ((coveredFor f0 df.chunks).length : Int)
              totalMissed :=
                acc.totalMissed + ((missedFor f0 df.chunks).length : Int)
              fileBreakdown := acc.fileBreakdown ++
                [{ path := dest
                   coveredLines := coveredFor f0 df.chunks
                   missedLines := missedFor f0 df.chunks
                   percentage :=
                     if (coveredFor f0 df.chunks).length +
                         (missedFor f0 df.chunks).length = 0 then 100
                     else (((coveredFor f0 df.chunks).length : Rat) /
                       (((coveredFor f0 df.chunks).length +
                         (missedFor f0 df.chunks).length : Nat) : Rat)) * 100 }]
              changedFiles := setAdd acc.changedFiles dest }
          else
            { files := acc.files
              totalCovered :=
                acc.totalCovered + ((coveredFor f0 df.chunks).length : Int)
              totalMissed :=
                acc.totalMissed + ((missedFor f0 df.chunks).length : Int)
              fileBreakdown := acc.fileBreakdown
              changedFiles := setAdd acc.changedFiles dest }) := by
        simp only [patchStep, hdel, hto, hde, hmi, hf, hcov, hmis,
          Bool.false_eq_true, if_false]
      have hcontrib : diffContrib files0 df =
          (((coveredFor f0 df.chunks).length : Int),
            ((missedFor f0 df.chunks).length : Int)) := by
        simp only [diffContrib, hdel, hto, hde, hmi, hf0,
          Bool.false_eq_true, if_false]
      rw [hstep, hcontrib]
      by_cases hnz : (coveredFor f0 df.chunks).length > 0 ∨
          (missedFor f0 df.chunks).length > 0
      · rw [if_pos hnz]
        exact And.intro (filesRel_set files0 acc.files i f hrel hf f0 hf0 hfr)
          (And.intro rfl rfl)
      · rw [if_neg hnz]
        exact And.intro hrel (And.intro rfl rfl)

theorem patchFold_spec (files0 : List FileCoverage) (dfs : List DiffFile) :
    ∀ acc : PatchAcc, filesRel files0 acc.files →
      filesRel files0
        ((dfs.foldl (patchStep (lastIndexOfPath files0)) acc).files) ∧
      (dfs.foldl (patchStep (lastIndexOfPath files0)) acc).totalCovered
        = acc.totalCovered +
          (dfs.map fun df => (diffContrib files0 df).1).sum ∧
      (dfs.foldl (patchStep (lastIndexOfPath files0)) acc).totalMissed
        = acc.totalMissed +
          (dfs.map fun df => (diffContrib files0 df).2).sum := by
  induction dfs with
  | nil =>
    intro acc hrel
    exact And.intro hrel (And.intro (by simp) (by simp))
  | cons df rest ih =>
    intro acc hrel
    obtain ⟨h1, h2, h3⟩ := patchStep_spec files0 acc df hrel
    obtain ⟨g1, g2, g3⟩ := ih (patchStep (lastIndexOfPath files0) acc df) h1
    refine ⟨g1, ?_, ?_⟩ <;>
      simp only [List.foldl_cons, List.map_cons, List.sum_cons, g2, g3, h2, h3] <;>
        ring

end PatchAnalyzer

theorem filesRel_refl (files : List FileCoverage) :
    PatchAnalyzer.filesRel files files := by
  constructor
  · rfl
  · intro i f0 f h0 hf
    left
    rw [h0] at hf
    exact (Option.some_inj.mp hf).symm

/-- C3: an added line is counted only when the matched file's per-line
coverage holds an entry for that exact line number (`count > 0` → covered,
otherwise missed; no entry → excluded from every count); `coveredLines`/
`missedLines` are the sums of these per-diff-file contributions,
`totalLines = coveredLines + missedLines`, and `percentage` is 100 when
`totalLines` is 0, else `coveredLines / totalLines * 100`. -/
theorem analyzePatchCoverage_spec (diffFiles : List DiffFile)
    (coverage : AggregatedCoverageResults) (fc : FileCoverage)
    (chs : List DiffChunk) (ln : Int) (lc : LineCoverage) :
    (PatchAnalyzer.analyzePatchCoverage diffFiles coverage).1.coveredLines
      = (diffFiles.map fun df =>
          (PatchAnalyzer.diffContrib coverage.files df).1).sum ∧
    (PatchAnalyzer.analyzePatchCoverage diffFiles coverage).1.missedLines
      = (diffFiles.map fun df =>
          (PatchAnalyzer.diffContrib coverage.files df).2).sum ∧
    (PatchAnalyzer.analyzePatchCoverage diffFiles coverage).1.totalLines
      = (PatchAnalyzer.analyzePatchCoverage diffFiles coverage).1.coveredLines +
        (PatchAnalyzer.analyzePatchCoverage diffFiles coverage).1.missedLines ∧
    (PatchAnalyzer.analyzePatchCoverage diffFiles coverage).1.percentage
      = (if (PatchAnalyzer.analyzePatchCoverage diffFiles coverage).1.totalLines = 0
          then 100
          else ((PatchAnalyzer.analyzePatchCoverage diffFiles
                  coverage).1.coveredLines : Rat) /
            ((PatchAnalyzer.analyzePatchCoverage diffFiles
                coverage).1.totalLines : Rat) * 100) ∧
    (PatchAnalyzer.lineLookup fc.lines ln = none →
      ln ∉ PatchAnalyzer.coveredFor fc chs ∧
      ln ∉ PatchAnalyzer.missedFor fc chs) ∧
    (PatchAnalyzer.lineLookup fc.lines ln = some lc → lc.count > 0 →
      ln ∈ PatchAnalyzer.addedLines chs →
      ln ∈ PatchAnalyzer.coveredFor fc chs ∧
      ln ∉ PatchAnalyzer.missedFor fc chs) ∧
    (PatchAnalyzer.lineLookup fc.lines ln = some lc → ¬lc.count > 0 →
      ln ∈ PatchAnalyzer.addedLines chs →
      ln ∈ PatchAnalyzer.missedFor fc chs ∧
      ln ∉ PatchAnalyzer.coveredFor fc chs) := by
  obtain ⟨hrel, hcov, hmis⟩ :=
    PatchAnalyzer.patchFold_spec coverage.files diffFiles
      { files := coverage.files, totalCovered := 0, totalMissed := 0
        fileBreakdown := [], changedFiles := [] }
      (filesRel_refl coverage.files)
  refine ⟨?_, ?_, rfl, rfl, ?_, ?_, ?_⟩
  · exact hcov.trans (by simp)
  · exact hmis.trans (by simp)
  · intro h
    constructor <;> intro hmem <;>
      simp [PatchAnalyzer.coveredFor, PatchAnalyzer.missedFor,
        List.mem_filter, h] at hmem
  · intro h hc hadd
    constructor
    · simp only [PatchAnalyzer.coveredFor, List.mem_filter, h]
      simp only [decide_eq_true_eq]
      exact ⟨hadd, hc⟩
    · intro hmem
      simp [PatchAnalyzer.missedFor, List.mem_filter, h] at hmem
      omega
  · intro h hc hadd
    constructor
    · simp only [PatchAnalyzer.missedFor, List.mem_filter, h]
      simp only [decide_eq_true_eq]
      exact ⟨hadd, hc⟩
    · intro hmem
      simp [PatchAnalyzer.coveredFor, List.mem_filter, h] at hmem
      exact hc hmem.2

/-- A coverage result holding one file `a.ts` with entries for lines 1
(hit) and 2 (missed) and none for line 3. -/
def patchSampleCoverage : AggregatedCoverageResults :=
  { totalStatements := 2, coveredStatements := 1, totalConditionals := 0
    coveredConditionals := 0, totalMethods := 0, coveredMethods := 0
    lineRate := 50, branchRate := 0
    files :=
      [{ name := "a.ts", path := "a.ts", statements := 2
         coveredStatements := 1, conditionals := 0, coveredConditionals := 0
         methods := 0, coveredMethods := 0, lineRate := 50, branchRate := 0
         lines := [{ lineNumber := 1, count := 1, kind := .stmt },
                   { lineNumber := 2, count := 0, kind := .stmt }] }] }

/-- A diff adding lines 1, 2 and 3 of `a.ts`. -/
def patchSampleDiff : List DiffFile :=
  [{ deleted := false, toPath := some "a.ts"
     chunks := [{ changes := [{ type := .add, ln := 1 },
                              { type := .add, ln := 2 },
                              { type := .add, ln := 3 }] }] }]

theorem analyzePatchCoverage_spec_witness :
    (PatchAnalyzer.analyzePatchCoverage patchSampleDiff
      patchSampleCoverage).1.coveredLines = 1 ∧
    (PatchAnalyzer.analyzePatchCoverage patchSampleDiff
      patchSampleCoverage).1.missedLines = 1 ∧
    (PatchAnalyzer.analyzePatchCoverage patchSampleDiff
      patchSampleCoverage).1.totalLines = 2 ∧
    (PatchAnalyzer.analyzePatchCoverage patchSampleDiff
      patchSampleCoverage).1.percentage = 50 := by
  have h := analyzePatchCoverage_spec patchSampleDiff patchSampleCoverage
    { name := "", path := "", statements := 0, coveredStatements := 0
      conditionals := 0, coveredConditionals := 0, methods := 0
      coveredMethods := 0, lineRate := 0, branchRate := 0, lines := [] }
    [] 1 { lineNumber := 1, count := 1, kind := .stmt }
  have hc : (PatchAnalyzer.analyzePatchCoverage patchSampleDiff
      patchSampleCoverage).1.coveredLines = 1 := by
    rw [h.1]; decide
  have hm : (PatchAnalyzer.analyzePatchCoverage patchSampleDiff
      patchSampleCoverage).1.missedLines = 1 := by
    rw [h.2.1]; decide
  have ht : (PatchAnalyzer.analyzePatchCoverage patchSampleDiff
      patchSampleCoverage).1.totalLines = 2 := by
    rw [h.2.2.1, hc, hm]; norm_num
  refine ⟨hc, hm, ht, ?_⟩
  rw [h.2.2.2.1, ht, hc]
  norm_num

/-- C10 (amended): the call leaves every top-level field of the coverage
input unchanged, and every file unchanged except that a matched file with
at least one trackable added line has `missingLines` replaced by an equal
array — the same value when it was present, the empty array when it was
absent. -/
theorem analyzePatchCoverage_frame (diffFiles : List DiffFile)
    (coverage : AggregatedCoverageResults) :
    (PatchAnalyzer.analyzePatchCoverage diffFiles coverage).2.totalStatements
      = coverage.totalStatements ∧
    (PatchAnalyzer.analyzePatchCoverage diffFiles coverage).2.coveredStatements
      = coverage.coveredStatements ∧
    (PatchAnalyzer.analyzePatchCoverage diffFiles coverage).2.totalConditionals
      = coverage.totalConditionals ∧
    (PatchAnalyzer.analyzePatchCoverage diffFiles coverage).2.coveredConditionals
      = coverage.coveredConditionals ∧
    (PatchAnalyzer.analyzePatchCoverage diffFiles coverage).2.totalMethods
      = coverage.totalMethods ∧
    (PatchAnalyzer.analyzePatchCoverage diffFiles coverage).2.coveredMethods
      = coverage.coveredMethods ∧
    (PatchAnalyzer.analyzePatchCoverage diffFiles coverage).2.lineRate
      = coverage.lineRate ∧
    (PatchAnalyzer.analyzePatchCoverage diffFiles coverage).2.branchRate
      = coverage.branchRate ∧
    (PatchAnalyzer.analyzePatchCoverage diffFiles coverage).2.comparison
      = coverage.comparison ∧
    (PatchAnalyzer.analyzePatchCoverage diffFiles coverage).2.files.length
      = coverage.files.length ∧
    (∀ i f0 f, coverage.files.get? i = some f0 →
      (PatchAnalyzer.analyzePatchCoverage diffFiles coverage).2.files.get? i
        = some f →
      f = f0 ∨ (f0.missingLines = none ∧
        f = { f0 with missingLines := some [] })) := by
  obtain ⟨hrel, -, -⟩ :=
    PatchAnalyzer.patchFold_spec coverage.files diffFiles
      { files := coverage.files, totalCovered := 0, totalMissed := 0
        fileBreakdown := [], changedFiles := [] }
      (filesRel_refl coverage.files)
  exact ⟨rfl, rfl, rfl, rfl, rfl, rfl, rfl, rfl, rfl, hrel.1,
    fun i f0 f h0 hf => hrel.2 i f0 f h0 hf⟩

theorem analyzePatchCoverage_frame_witness :
    (PatchAnalyzer.analyzePatchCoverage patchSampleDiff
      patchSampleCoverage).2.totalStatements = 2 ∧
    (PatchAnalyzer.analyzePatchCoverage patchSampleDiff
      patchSampleCoverage).2.lineRate = 50 := by
  have h := analyzePatchCoverage_frame patchSampleDiff patchSampleCoverage
  exact ⟨h.1.trans (by decide), h.2.2.2.2.2.2.1.trans (by decide)⟩

/-- A coverage result whose single file has no `missingLines` array. -/
def frameCov : AggregatedCoverageResults :=
  { totalStatements := 1, coveredStatements := 1, totalConditionals := 0
    coveredConditionals := 0, totalMethods := 0, coveredMethods := 0
    lineRate := 100, branchRate := 0
    files :=
      [{ name := "a.ts", path := "a.ts", statements := 1
         coveredStatements := 1, conditionals := 0, coveredConditionals := 0
         methods := 0, coveredMethods := 0, lineRate := 100, branchRate := 0
         lines := [{ lineNumber := 1, count := 1, kind := .stmt }] }] }

/-- C10 counterexample: the file's `missingLines` is absent (`none`) before
the call and the empty array (`some []`) after it — the analyzer writes
`coverageFile.missingLines = [...(coverageFile.missingLines || [])]`
through the map's reference for every matched file with a trackable added
line, so the input is not value-level read-only. -/
theorem analyzePatchCoverage_mutation_counterexample :
    frameCov.files.map (·.missingLines) = [none] ∧
    (PatchAnalyzer.analyzePatchCoverage
      [{ deleted := false, toPath := some "a.ts"
         chunks := [{ changes := [{ type := .add, ln := 1 }] }] }]
      frameCov).2.files.map (·.missingLines) = [some []] := by
  constructor
  · decide
  · decide

/-! ## Format detection (`CoverageParserFactory.detectParser` and the
parsers' `canParse` signatures) -/

def lowerChars (l : List Char) : List Char := l.map Char.toLower

def listEndsWith (suffix l : List Char) : Bool :=
  listStarts suffix.reverse l.reverse

/-- `BaseCoverageParser.getFileExtension`: text after the last dot,
lowercased; empty when the path has no dot. -/
def getFileExtension (filePath : String) : String :=
  let parts := splitOnChar '.' filePath.data
  if parts.length > 1 then ⟨lowerChars (parts.getLast?.getD [])⟩ else ""

/-- `CloverParser.canParse`. -/
def cloverCanParse (content : String) (filePath : Option String) : Bool :=
  let contentCheck :=
    jsIncludes content "<coverage" && jsIncludes content "<project" &&
      jsIncludes content "clover"
  match filePath with
  | none => contentCheck
  | some fp =>
    if listEndsWith "clover.xml".data (lowerChars fp.data) then true
    else if getFileExtension fp ≠ "xml" then false
    else contentCheck

/-- `CoberturaParser.canParse`. -/
def coberturaCanParse (content : String) (filePath : Option String) : Bool :=
  let contentCheck :=
    jsIncludes content "<coverage" && jsIncludes content "line-rate" &&
      jsIncludes content "<packages" && !jsIncludes content "<project" &&
      !jsIncludes content "<report"
  match filePath with
  | none => contentCheck
  | some fp =>
    if getFileExtension fp ≠ "xml" then false else contentCheck

/-- `JaCoCoParser.canParse`. -/
def jacocoCanParse (content : String) (filePath : Option String) : Bool :=
  let contentCheck :=
    jsIncludes content "<report" && jsIncludes content "<counter type=\"" &&
      !jsIncludes content "<coverage"
  match filePath with
  | none => contentCheck
  | some fp =>
    if listEndsWith "jacoco.xml".data (lowerChars fp.data) then true
    else if getFileExtension fp ≠ "xml" then false
    else contentCheck

/-- `LcovParser.canParse`. -/
def lcovCanParse (content : String) (filePath : Option String) : Bool :=
  let contentCheck :=
    jsIncludes content "SF:" &&
      (jsIncludes content "DA:" || jsIncludes content "LF:") &&
      jsIncludes content "end_of_record"
  match filePath with
  | none => contentCheck
  | some fp =>
    if getFileExtension fp = "info" ||
        listEndsWith "lcov.info".data (lowerChars fp.data) ||
        listEndsWith ".lcov".data (lowerChars fp.data) then true
    else contentCheck

/-- `IstanbulParser.canParse`. -/
def istanbulCanParse (content : String) (filePath : Option String) : Bool :=
  let contentCheck :=
    jsIncludes content "\"statementMap\"" && jsIncludes content "\"fnMap\"" &&
      jsIncludes content "\"branchMap\"" &&
      (jsIncludes content "\"s\"" || jsIncludes content "\"f\"")
  match filePath with
  | none => contentCheck
  | some fp =>
    if listEndsWith "coverage-final.json".data (lowerChars fp.data) ||
        listEndsWith "coverage-summary.json".data (lowerChars fp.data) then true
    else if getFileExtension fp ≠ "json" then false
    else contentCheck

/-- Consume a non-empty digit run, returning the remainder. -/
def expectDigits (l : List Char) : Option (List Char) :=
  let ds := l.takeWhile isDigitChar
  if ds.isEmpty then none else some (l.drop ds.length)

/-- Whether a suffix (after a colon) is a Go coverage block
`startLine.startCol,endLine.endCol numStatements count` exactly. -/
def goBlockSuffix (l : List Char) : Bool :=
  match expectDigits l with
  | none => false
  | some r1 =>
    match r1 with
    | '.' :: r2 =>
      match expectDigits r2 with
      | none => false
      | some r3 =>
        match r3 with
        | ',' :: r4 =>
          match expectDigits r4 with
          | none => false
          | some r5 =>
            match r5 with
            | '.' :: r6 =>
              match expectDigits r6 with
              | none => false
              | some r7 =>
                match r7 with
                | ' ' :: r8 =>
                  match expectDigits r8 with
                  | none => false
                  | some r9 =>
                    match r9 with
                    | ' ' :: r10 =>
                      match expectDigits r10 with
                      | none => false
                      | some r11 => r11.isEmpty
                    | _ => false
                | _ => false
            | _ => false
        | _ => false
    | _ => false

def goLineHasBlock : List Char → Bool
  | [] => false
  | c :: rest => (c == ':' && goBlockSuffix rest) || goLineHasBlock rest

/-- Modelled from the spec: `GoParser.canParse`.  The `GoParser` class is
code of this repository that is not under `src/` (only its test file is).
Spec §4.1: a Go coverage profile is "text, blocks as
`file:startLine.startCol,endLine.endCol numStatements count`, first line
optionally `mode: set|count|atomic`"; §4.2: detection selects a parser "by
content-signature sniffing".  The model accepts content whose first line
starts with `mode:` or in which some line carries a Go block after a
colon. -/
def goCanParse (content : String) (filePath : Option String) : Bool :=
  let lines := splitOnChar '\n' content.data
  (match lines with
    | [] => false
    | l0 :: _ => listStarts ['m', 'o', 'd', 'e', ':'] (trimChars l0)) ||
  lines.any goLineHasBlock ||
  (match filePath with
    | none => false
    | some fp =>
      listEndsWith ".out".data (lowerChars fp.data) ||
      listEndsWith ".coverprofile".data (lowerChars fp.data))

/-- The parser registry's format tags, in registration order
(`CoverageParserFactory.parsers`): Clover, Cobertura, JaCoCo, LCOV,
Istanbul, Go.  The `CodecovParser` class exists in the repository but is
not registered. -/
inductive CoverageFormat where
  | clover
  | cobertura
  | jacoco
  | lcov
  | istanbul
  | go
deriving DecidableEq, Repr

def parsersList : List CoverageFormat :=
  [.clover, .cobertura, .jacoco, .lcov, .istanbul, .go]

def parserCanParse (fmt : CoverageFormat) (content : String)
    (filePath : Option String) : Bool :=
  match fmt with
  | .clover => cloverCanParse content filePath
  | .cobertura => coberturaCanParse content filePath
  | .jacoco => jacocoCanParse content filePath
  | .lcov => lcovCanParse content filePath
  | .istanbul => istanbulCanParse content filePath
  | .go => goCanParse content filePath

/-- `CoverageParserFactory.detectFormatFromPath`. -/
def detectFormatFromPath (filePath : String) : Option CoverageFormat :=
  let lowerPath := lowerChars filePath.data
  if listEndsWith "clover.xml".data lowerPath then some .clover
  else if listEndsWith "cobertura.xml".data lowerPath ||
      listContains "cobertura".data lowerPath then some .cobertura
  else if listEndsWith "jacoco.xml".data lowerPath ||
      listContains "jacoco".data lowerPath then some .jacoco
  else if listEndsWith "lcov.info".data lowerPath ||
      listEndsWith ".lcov".data lowerPath then some .lcov
  else if listEndsWith "coverage-final.json".data lowerPath ||
      listContains "istanbul".data lowerPath then some .istanbul
  else if listEndsWith "coverage.out".data lowerPath ||
      listEndsWith "cover.out".data lowerPath ||
      listEndsWith ".coverprofile".data lowerPath then some .go
  else none

/-- `CoverageParserFactory.detectParser`: first registered parser whose
`canParse` accepts, else the path-based fallback (`getParser` of the
fallback's format is the identity on the six registered tags), else
`null`. -/
def detectParser (content : String) (filePath : Option String) :
    Option CoverageFormat :=
  match parsersList.find? fun p => parserCanParse p content filePath with
  | some p => some p
  | none =>
    match filePath with
    | some fp => detectFormatFromPath fp
    | none => none

/-- Canonical Clover sample (a `<coverage>` root with `clover` attribute
and a `<project>`). -/
def cloverSample : String :=
  "<coverage clover=\"3.2.0\">\n<project timestamp=\"1\">\n<metrics statements=\"2\" coveredstatements=\"1\"/>\n</project>\n</coverage>"

/-- Canonical Cobertura sample (`<coverage line-rate=...>` with
`<packages>`). -/
def coberturaSample : String :=
  "<coverage line-rate=\"0.5\" branch-rate=\"0.3\">\n<packages>\n<package name=\"p\">\n<classes>\n<class filename=\"f.py\">\n<lines><line number=\"1\" hits=\"1\"/></lines>\n</class>\n</classes>\n</package>\n</packages>\n</coverage>"

/-- Canonical JaCoCo sample (`<report>` with `<counter type=...>`). -/
def jacocoSample : String :=
  "<report name=\"t\">\n<package name=\"p\">\n<sourcefile name=\"F.java\">\n<line nr=\"1\" mi=\"0\" ci=\"5\" mb=\"0\" cb=\"0\"/>\n<counter type=\"LINE\" missed=\"0\" covered=\"1\"/>\n</sourcefile>\n</package>\n</report>"

/-- Canonical LCOV sample. -/
def lcovSample : String :=
  "SF:/src/file.ts\nDA:1,5\nDA:2,0\nLF:2\nLH:1\nend_of_record\n"

/-- Canonical Istanbul/NYC JSON sample. -/
def istanbulSample : String :=
  "\x7b\"/src/file.ts\":\x7b\"path\":\"/src/file.ts\",\"statementMap\":\x7b\x7d,\"fnMap\":\x7b\x7d,\"branchMap\":\x7b\x7d,\"s\":\x7b\x7d,\"f\":\x7b\x7d,\"b\":\x7b\x7d\x7d\x7d"

/-- Canonical Go coverage-profile sample. -/
def goSample : String :=
  "mode: set\ngithub.com/user/project/file.go:1.1,3.2 1 1\n"

/-- Canonical Codecov custom-JSON sample
(`{"coverage": {path: {line: value}}}`). -/
def codecovSample : String :=
  "\x7b\"coverage\":\x7b\"src/main.rs\":\x7b\"1\":5,\"2\":\"1/2\"\x7d\x7d\x7d"

/-- C6 (amended): for each of the six *registered* formats — Clover,
Cobertura, JaCoCo, LCOV, Istanbul, Go — `detectParser` on that format's
canonical sample returns that format's parser, whose own `canParse`
accepts the sample while every other registered parser's `canParse`
rejects it.  Codecov-JSON is not among the registered parsers. -/
theorem detectParser_roundtrip_spec :
    detectParser cloverSample none = some .clover ∧
    parsersList.map (fun p => parserCanParse p cloverSample none)
      = [true, false, false, false, false, false] ∧
    detectParser coberturaSample none = some .cobertura ∧
    parsersList.map (fun p => parserCanParse p coberturaSample none)
      = [false, true, false, false, false, false] ∧
    detectParser jacocoSample none = some .jacoco ∧
    parsersList.map (fun p => parserCanParse p jacocoSample none)
      = [false, false, true, false, false, false] ∧
    detectParser lcovSample none = some .lcov ∧
    parsersList.map (fun p => parserCanParse p lcovSample none)
      = [false, false, false, true, false, false] ∧
    detectParser istanbulSample none = some .istanbul ∧
    parsersList.map (fun p => parserCanParse p istanbulSample none)
      = [false, false, false, false, true, false] ∧
    detectParser goSample none = some .go ∧
    parsersList.map (fun p => parserCanParse p goSample none)
      = [false, false, false, false, false, true] := by
  refine ⟨?_, ?_, ?_, ?_, ?_, ?_, ?_, ?_, ?_, ?_, ?_, ?_⟩ <;> decide

/-- C6 counterexample: on canonical Codecov custom-JSON content,
`detectParser` returns `null` — no registered parser accepts it; the
`CodecovParser` class is not in `CoverageParserFactory.parsers` (the
factory's own tests assert exactly six supported formats), so no parser
with format "codecov" can ever be returned. -/
theorem detectParser_codecov_counterexample :
    detectParser codecovSample none = none ∧
    parsersList.map (fun p => parserCanParse p codecovSample none)
      = [false, false, false, false, false, false] := by
  constructor <;> decide
